import Mathlib

/-!
Verification of the stream-selection engine in
`src/android/src/main/python/ytdlp_services.py` (flutter_ytdlp_plugin).

The Python module is shallowly embedded: dictionaries of raw yt-dlp format
descriptors become a `RawFormat` structure whose fields distinguish
"key absent", "key present with value `None`", and "key present with a value";
Python floats (the `tbr` field) are modelled as exact rationals; fallible code
returns `Except`; the per-call `_log_warning` emissions that the spec treats as
part of the contract are returned as an explicit list of `Diag` values
(`_log_debug` / `_log_error` emissions are not modelled).
-/

namespace YtdlpServices

/-! ## Python string primitives -/

/-- ASCII whitespace, as stripped by Python `str.strip()` (restricted to the
ASCII range; the module only ever feeds it quality tokens). -/
def pyIsSpace (c : Char) : Bool :=
  c == ' ' || c == '\t' || c == '\n' || c == '\r' || c == '\x0b' || c == '\x0c'

/-- Python `str.lower()` (ASCII range). -/
def pyLower (s : String) : String := String.mk (s.toList.map Char.toLower)

def pyStripList (l : List Char) : List Char :=
  ((l.dropWhile pyIsSpace).reverse.dropWhile pyIsSpace).reverse

/-- Python `str.strip()`. -/
def pyStrip (s : String) : String := String.mk (pyStripList s.toList)

/-- Python `str.endswith(c)` for a one-character suffix. -/
def pyEndsWith (s : String) (c : Char) : Bool := s.toList.getLast? == some c

/-- `listLeads pat l` holds when `pat` is an initial segment of `l`. -/
def listLeads : List Char → List Char → Bool
  | [], _ => true
  | _ :: _, [] => false
  | p :: ps, c :: cs => p == c && listLeads ps cs

/-- `listHasSub pat l` is Python `pat in l` on character lists. -/
def listHasSub (pat : List Char) : List Char → Bool
  | [] => pat.isEmpty
  | c :: cs => listLeads pat (c :: cs) || listHasSub pat cs

/-- Python substring containment `pat in hay`. -/
def hasSub (hay pat : String) : Bool := listHasSub pat.toList hay.toList

theorem listLeads_iff (pat l : List Char) :
    listLeads pat l = true ↔ ∃ r, l = pat ++ r := by
  induction pat generalizing l with
  | nil => simp [listLeads]
  | cons p ps ih =>
    cases l with
    | nil => simp [listLeads]
    | cons c cs =>
      simp only [listLeads, Bool.and_eq_true, beq_iff_eq, ih, List.cons_append]
      constructor
      · rintro ⟨rfl, r, rfl⟩; exact ⟨r, rfl⟩
      · rintro ⟨r, h⟩
        injection h with h1 h2
        exact ⟨h1.symm, r, h2⟩

theorem listHasSub_iff (pat l : List Char) :
    listHasSub pat l = true ↔ ∃ pre post, l = pre ++ pat ++ post := by
  induction l with
  | nil =>
    simp only [listHasSub, List.isEmpty_iff]
    constructor
    · rintro rfl; exact ⟨[], [], rfl⟩
    · rintro ⟨pre, post, h⟩
      rcases List.append_eq_nil.mp (List.append_eq_nil.mp h.symm).1 with ⟨-, h2⟩
      exact h2
  | cons c cs ih =>
    simp only [listHasSub, Bool.or_eq_true, listLeads_iff, ih]
    constructor
    · rintro (⟨r, h⟩ | ⟨pre, post, h⟩)
      · exact ⟨[], r, by simp [h]⟩
      · exact ⟨c :: pre, post, by simp [h]⟩
    · rintro ⟨pre, post, h⟩
      cases pre with
      | nil => exact Or.inl ⟨post, by simpa using h⟩
      | cons p ps =>
        right
        simp only [List.cons_append, List.cons.injEq] at h
        exact ⟨ps, post, h.2⟩

/-- Substring containment as a proposition (used on the specification side). -/
def specSubstr (pat hay : String) : Prop :=
  ∃ pre post, hay.toList = pre ++ pat.toList ++ post

theorem hasSub_iff (hay pat : String) :
    hasSub hay pat = true ↔ specSubstr pat hay := by
  exact listHasSub_iff pat.toList hay.toList

/-! ## Python `int(str)` and `str.isdigit()` -/

def pyDigitVal (c : Char) : Nat := c.toNat - '0'.toNat

/-- Digit-sequence parser of Python `int`: after the first digit the grammar is
`digit (underscore? digit)*` (a single underscore is allowed between digits). -/
def pyIntCore (acc : Nat) : List Char → Option Nat
  | [] => some acc
  | '_' :: c :: cs =>
    if c.isDigit then pyIntCore (acc * 10 + pyDigitVal c) cs else none
  | c :: cs =>
    if c.isDigit then pyIntCore (acc * 10 + pyDigitVal c) cs else none

/-- Python `int(s)` on an already whitespace-stripped character list: an
optional sign followed by a digit sequence; anything else raises `ValueError`,
modelled as `none`. -/
def pyIntOfStripped : List Char → Option Int
  | [] => none
  | c :: cs =>
    if c == '-' then
      match cs with
      | [] => none
      | d :: ds =>
        if d.isDigit then (pyIntCore (pyDigitVal d) ds).map (fun n => -(n : Int))
        else none
    else if c == '+' then
      match cs with
      | [] => none
      | d :: ds =>
        if d.isDigit then (pyIntCore (pyDigitVal d) ds).map (fun n => (n : Int))
        else none
    else if c.isDigit then (pyIntCore (pyDigitVal c) cs).map (fun n => (n : Int))
    else none

/-- Python `int(s)` (ASCII range): `none` models a raised `ValueError`. -/
def pyInt (s : String) : Option Int := pyIntOfStripped (pyStripList s.toList)

/-- Python `str.isdigit()` (ASCII range): non-empty and all digits. -/
def pyIsDigit (s : String) : Bool := !s.toList.isEmpty && s.toList.all Char.isDigit

theorem dropWhile_of_all_false {p : Char → Bool} :
    ∀ {l : List Char}, (∀ c ∈ l, p c = false) → l.dropWhile p = l := by
  intro l h
  cases l with
  | nil => rfl
  | cons c cs => simp [List.dropWhile_cons, h c (by simp)]

theorem pyStripList_of_no_space {l : List Char}
    (h : ∀ c ∈ l, pyIsSpace c = false) : pyStripList l = l := by
  unfold pyStripList
  rw [dropWhile_of_all_false h, dropWhile_of_all_false (by intro c hc; exact h c (by simpa using hc))]
  simp

theorem isDigit_not_space {c : Char} (h : c.isDigit = true) : pyIsSpace c = false := by
  revert h
  unfold Char.isDigit pyIsSpace
  rcases c with ⟨v, hv⟩
  intro h
  simp only [Bool.or_eq_false_iff, beq_eq_false_iff_ne, ne_eq]
  refine ⟨⟨⟨⟨⟨?_, ?_⟩, ?_⟩, ?_⟩, ?_⟩, ?_⟩ <;>
    (intro he; rw [he] at h; simp [decide_eq_true_eq] at h)

/-- `int()` applied to an all-digit string cannot produce a negative value. -/
theorem pyInt_getD_nonneg {s : String} (hd : pyIsDigit s = true) :
    0 ≤ (pyInt s).getD 0 := by
  unfold pyIsDigit at hd
  rcases Bool.and_eq_true _ _ |>.mp hd with ⟨hne, hall⟩
  unfold pyInt
  rw [pyStripList_of_no_space (by
    intro c hc
    exact isDigit_not_space (by simpa using (List.all_eq_true.mp hall c hc)))]
  cases hl : s.toList with
  | nil => exact absurd hl (by simpa using hne)
  | cons c cs =>
    have hcd : c.isDigit = true := by
      have := List.all_eq_true.mp hall c (by rw [hl]; simp)
      simpa using this
    have hcm : (c == '-') = false := by
      cases hcc : c == '-' with
      | false => rfl
      | true => rw [eq_of_beq hcc] at hcd; simp [Char.isDigit] at hcd
    have hcp : (c == '+') = false := by
      cases hcc : c == '+' with
      | false => rfl
      | true => rw [eq_of_beq hcc] at hcd; simp [Char.isDigit] at hcd
    simp only [pyIntOfStripped, hcm, hcp, hcd, if_true, if_false, Bool.false_eq_true]
    cases pyIntCore (pyDigitVal c) cs with
    | none => simp
    | some n => simp

/-! ## Python `min` / `max` with a key function (first wins on ties) -/

/-- Python `max(x :: xs, key = k)`: fold that replaces the current best only on
a strictly larger key, so the first encountered maximum wins. -/
def pyFoldMax (k : α → β) [LinearOrder β] (x : α) (xs : List α) : α :=
  xs.foldl (fun best a => if k best < k a then a else best) x

/-- Python `min(x :: xs, key = k)`: replace only on a strictly smaller key. -/
def pyFoldMin (k : α → β) [LinearOrder β] (x : α) (xs : List α) : α :=
  xs.foldl (fun best a => if k a < k best then a else best) x

/-- `pyFoldMax` returns an occurrence of a maximal-key element preceded only by
strictly smaller keys — i.e. the first maximum in encounter order. -/
theorem pyFoldMax_spec (k : α → β) [LinearOrder β] (x : α) (xs : List α) :
    ∃ pre post, x :: xs = pre ++ pyFoldMax k x xs :: post ∧
      (∀ a ∈ x :: xs, k a ≤ k (pyFoldMax k x xs)) ∧
      (∀ a ∈ pre, k a < k (pyFoldMax k x xs)) := by
  induction xs generalizing x with
  | nil =>
    exact ⟨[], [], by simp [pyFoldMax]⟩
  | cons y ys ih =>
    by_cases hxy : k x < k y
    · have hstep : pyFoldMax k x (y :: ys) = pyFoldMax k y ys := by
        simp [pyFoldMax, hxy]
      rw [hstep]
      obtain ⟨pre, post, hsplit, hmax, hpre⟩ := ih y
      have hy_le : k y ≤ k (pyFoldMax k y ys) := hmax y (by simp)
      refine ⟨x :: pre, post, by simp [hsplit], ?_, ?_⟩
      · intro a ha
        rcases List.mem_cons.mp ha with rfl | ha'
        · exact le_of_lt (lt_of_lt_of_le hxy hy_le)
        · exact hmax a ha'
      · intro a ha
        rcases List.mem_cons.mp ha with rfl | ha'
        · exact lt_of_lt_of_le hxy hy_le
        · exact hpre a ha'
    · have hstep : pyFoldMax k x (y :: ys) = pyFoldMax k x ys := by
        simp [pyFoldMax, hxy]
      rw [hstep]
      obtain ⟨pre, post, hsplit, hmax, hpre⟩ := ih x
      have hy_le : k y ≤ k (pyFoldMax k x ys) :=
        le_trans (le_of_not_lt hxy) (hmax x (by simp))
      cases pre with
      | nil =>
        have hfx : pyFoldMax k x ys = x := by
          simp only [List.nil_append, List.cons.injEq] at hsplit
          exact hsplit.1.symm
        refine ⟨[], y :: ys, by simp [hfx], ?_, by simp⟩
        intro a ha
        rcases List.mem_cons.mp ha with rfl | ha'
        · exact hmax a (by simp)
        · rcases List.mem_cons.mp ha' with rfl | ha''
          · exact hy_le
          · exact hmax a (by simp [ha''])
      | cons p ps =>
        have h1 : x = p ∧ ys = ps ++ pyFoldMax k x ys :: post := by
          simpa only [List.cons_append, List.cons.injEq] using hsplit
        have hx_lt : k x < k (pyFoldMax k x ys) := by
          have hp := hpre p (by simp)
          rw [← h1.1] at hp
          exact hp
        refine ⟨x :: y :: ps, post, ?_, ?_, ?_⟩
        · conv_lhs => rw [h1.2]
          simp
        · intro a ha
          rcases List.mem_cons.mp ha with rfl | ha'
          · exact hmax a (by simp)
          · rcases List.mem_cons.mp ha' with rfl | ha''
            · exact hy_le
            · exact hmax a (by simp [ha''])
        · intro a ha
          rcases List.mem_cons.mp ha with rfl | ha'
          · exact hx_lt
          · rcases List.mem_cons.mp ha' with rfl | ha''
            · exact lt_of_le_of_lt (le_of_not_lt hxy) hx_lt
            · have := hpre a (by simp [ha''])
              exact this

/-- `pyFoldMin` returns an occurrence of a minimal-key element preceded only by
strictly larger keys — i.e. the first minimum in encounter order. -/
theorem pyFoldMin_spec (k : α → β) [LinearOrder β] (x : α) (xs : List α) :
    ∃ pre post, x :: xs = pre ++ pyFoldMin k x xs :: post ∧
      (∀ a ∈ x :: xs, k (pyFoldMin k x xs) ≤ k a) ∧
      (∀ a ∈ pre, k (pyFoldMin k x xs) < k a) := by
  have h := pyFoldMax_spec (β := βᵒᵈ) (fun a => OrderDual.toDual (k a)) x xs
  have heq : pyFoldMax (β := βᵒᵈ) (fun a => OrderDual.toDual (k a)) x xs
      = pyFoldMin k x xs := by
    unfold pyFoldMax pyFoldMin
    congr 1
  rw [heq] at h
  obtain ⟨pre, post, hsplit, hmax, hpre⟩ := h
  exact ⟨pre, post, hsplit, fun a ha => hmax a ha, fun a ha => hpre a ha⟩

theorem pyFoldMax_mem (k : α → β) [LinearOrder β] (x : α) (xs : List α) :
    pyFoldMax k x xs ∈ x :: xs := by
  obtain ⟨pre, post, hsplit, -, -⟩ := pyFoldMax_spec k x xs
  rw [hsplit]; simp

theorem pyFoldMin_mem (k : α → β) [LinearOrder β] (x : α) (xs : List α) :
    pyFoldMin k x xs ∈ x :: xs := by
  obtain ⟨pre, post, hsplit, -, -⟩ := pyFoldMin_spec k x xs
  rw [hsplit]; simp

/-! ## Data model

`StreamInfo` is the output dataclass (ytdlp_services.py:12-28).  `url` is
always a real string at construction time (every construction site has already
established a truthy url or indexes a pre-filtered dict); `ext` can receive
Python `None` (a format dict with `ext: null`), hence `Option`.  The float
field `tbr`/`bitrate` is modelled as an exact rational. -/

structure StreamInfo where
  url : String
  ext : Option String
  resolution : Option String := none
  height : Option Int := none
  width : Option Int := none
  bitrate : Option Rat := none
  codec : Option String := none
  filesize : Option Int := none
  format_note : Option String := none
  format_id : Option String := none
deriving DecidableEq

/-- One raw yt-dlp format dict, restricted to the keys the module reads.  Each
field is `Option (Option τ)`: `none` = key absent, `some none` = key present
with value `None`, `some (some v)` = key present with value `v`. -/
structure RawFormat where
  vcodec : Option (Option String) := none
  acodec : Option (Option String) := none
  url : Option (Option String) := none
  ext : Option (Option String) := none
  height : Option (Option Int) := none
  width : Option (Option Int) := none
  tbr : Option (Option Rat) := none
  filesize : Option (Option Int) := none
  format_note : Option (Option String) := none
  format_id : Option (Option String) := none
  resolution : Option (Option String) := none
deriving DecidableEq

/-- Python `fmt.get(key)`: absent key gives `None`. -/
def pyGet (f : Option (Option τ)) : Option τ := f.getD none

/-- Python `fmt.get(key, d)`: absent key gives the default, a present key gives
its value (which may itself be `None`). -/
def pyGetD (f : Option (Option τ)) (d : τ) : Option τ :=
  match f with
  | none => some d
  | some v => v

/-- Python truthiness of an optional string (`None` and `""` are falsy). -/
def truthyS : Option String → Bool
  | none => false
  | some s => !s.isEmpty

/-- Python truthiness of an optional int (`None` and `0` are falsy). -/
def truthyI : Option Int → Bool
  | none => false
  | some n => n != 0

/-- Python truthiness of an optional float (`None` and `0.0` are falsy). -/
def truthyQ : Option Rat → Bool
  | none => false
  | some q => q != 0

/-- Warning-level diagnostics (`_log_warning` calls) that the spec treats as
part of the contract.  Debug- and error-level logging is not modelled. -/
inductive Diag where
  /-- "Requested quality ... not available. Using closest: ..." (line 327). -/
  | warnClosestQuality (requested : String) (got : Option Int)
  /-- "No streams found with codec ..., using best available" (line 401). -/
  | warnNoCodecStreams (codec : String)
  /-- "Requested bitrate ...kbps not available. Using: ..." (line 407). -/
  | warnBitrateMismatch (requested : Int) (got : Option Rat)
deriving DecidableEq

/-! ## QualityNormalizer: `_parse_quality` (lines 217-256)

The body is wrapped in `try/except (ValueError, AttributeError)`, and the only
statement that can raise is the `int()` call on the `p`-suffix branch; the
handler returns 0, which is folded into the `none` case of `pyInt` below (no
later rule of the chain can fire for a token ending in `p`, so returning 0
directly is also what falling through would give). -/

def k_formats : List (String × Int) :=
  [("2k", 1440), ("4k", 2160), ("8k", 4320), ("1k", 1080)]

def aliases : List (String × Int) :=
  [("hd", 720), ("high", 720),
   ("fhd", 1080), ("full hd", 1080), ("fullhd", 1080),
   ("qhd", 1440), ("quad hd", 1440), ("quadhd", 1440),
   ("uhd", 2160), ("ultra hd", 2160), ("ultrahd", 2160)]

def lookupTable (tbl : List (String × Int)) (q : String) : Option Int :=
  match tbl.find? (fun kv => kv.1 == q) with
  | some kv => some kv.2
  | none => none

/-- `quality_lower[:-1]`, the token with its final character removed. -/
def strDropLast (s : String) : String := String.mk s.toList.dropLast

def parse_quality (quality_str : String) : Int :=
  if quality_str.isEmpty then 0
  else if pyEndsWith (pyStrip (pyLower quality_str)) 'p' then
    match pyInt (strDropLast (pyStrip (pyLower quality_str))) with
    | some n => n
    | none => 0
  else
    match lookupTable k_formats (pyStrip (pyLower quality_str)) with
    | some v => v
    | none =>
      if pyIsDigit (pyStrip (pyLower quality_str)) then
        (pyInt (pyStrip (pyLower quality_str))).getD 0
      else
        match lookupTable aliases (pyStrip (pyLower quality_str)) with
        | some v => v
        | none => 0

/-! ## FormatCatalog and SelectionPolicy -/

/-- Derived resolution label (lines 289-294 and 515-520): keep a truthy
provider label; else `"{width}x{height}"` when both are truthy, else
`"{height}p"` when only the height is, else the original falsy value. -/
def buildResolution (res0 : Option String) (height width : Option Int) :
    Option String :=
  if truthyS res0 then res0
  else if truthyI height && truthyI width then
    some (toString (width.getD 0) ++ "x" ++ toString (height.getD 0))
  else if truthyI height then some (toString (height.getD 0) ++ "p")
  else res0

/-- Video-candidate collection of `get_video_streams` (lines 274-309): skip
formats with a falsy or `"none"` vcodec, and formats with a falsy url or a url
containing `"manifest"`. -/
def gvsCollect : List RawFormat → List StreamInfo
  | [] => []
  | fmt :: rest =>
    let vcodec := pyGet fmt.vcodec
    if !truthyS vcodec || vcodec == some "none" then gvsCollect rest
    else
      let height := pyGetD fmt.height 0
      let width := pyGetD fmt.width 0
      match pyGetD fmt.url "" with
      | none => gvsCollect rest
      | some u =>
        if u.isEmpty || hasSub u "manifest" then gvsCollect rest
        else
          { url := u, ext := pyGetD fmt.ext "unknown",
            resolution := buildResolution (pyGet fmt.resolution) height width,
            height := height, width := width, bitrate := pyGet fmt.tbr,
            codec := vcodec, filesize := pyGet fmt.filesize,
            format_note := pyGet fmt.format_note,
            format_id := pyGet fmt.format_id } :: gvsCollect rest

/-- Shared video selection (lines 316-329 in `get_video_streams` and the
identical lines 541-550 in the unified video worker): exact height matches
first, best bitrate among them (`x.bitrate or 0`), else the candidate with the
smallest `abs((x.height or 0) - target_height)`. -/
def selectVideo (streams : List StreamInfo) (target : Int) : Option StreamInfo :=
  match streams.filter (fun s => s.height == some target) with
  | e :: es => some (pyFoldMax (fun x => x.bitrate.getD 0) e es)
  | [] =>
    match streams with
    | [] => none
    | x :: xs => some (pyFoldMin (fun s => |s.height.getD 0 - target|) x xs)

/-- `get_video_streams` from the point where the format list is in hand
(lines 267-329); `Except.error ()` stands for the raised `ValueError`. -/
def get_video_streams (formats : List RawFormat) (quality : String) :
    Except Unit (List StreamInfo × List Diag) :=
  let streams := gvsCollect formats
  let target := parse_quality quality
  match streams.filter (fun s => s.height == some target) with
  | e :: es => .ok ([pyFoldMax (fun x => x.bitrate.getD 0) e es], [])
  | [] =>
    match streams with
    | [] => .error ()
    | x :: xs =>
      let best := pyFoldMin (fun s => |s.height.getD 0 - target|) x xs
      .ok ([best], [.warnClosestQuality quality best.height])

/-- Audio-candidate collection of `get_audio_streams` (lines 354-376): skip
formats with a falsy or `"none"` acodec, a falsy or non-positive `tbr`, or a
falsy url. -/
def gasCollect : List RawFormat → List StreamInfo
  | [] => []
  | fmt :: rest =>
    let acodec := pyGet fmt.acodec
    if !truthyS acodec || acodec == some "none" then gasCollect rest
    else
      match pyGetD fmt.tbr 0 with
      | none => gasCollect rest
      | some b =>
        if b == 0 || b ≤ 0 then gasCollect rest
        else
          match pyGetD fmt.url "" with
          | none => gasCollect rest
          | some u =>
            if u.isEmpty then gasCollect rest
            else
              { url := u, ext := pyGetD fmt.ext "unknown", bitrate := some b,
                codec := acodec, filesize := pyGet fmt.filesize,
                format_note := pyGet fmt.format_note,
                format_id := pyGet fmt.format_id } :: gasCollect rest

/-- The codec-specific lambdas of `get_audio_streams` (lines 384-388): for the
tokens of the table the lambda alone decides (the generic substring test of
line 395 is only reached for tokens outside the table). -/
def audioCodecLambda (codecLower : String) : Option (StreamInfo → Bool) :=
  if codecLower == "aac" then some (fun x => hasSub (pyLower (x.codec.getD "")) "mp4a")
  else if codecLower == "mp4a" then some (fun x => hasSub (pyLower (x.codec.getD "")) "mp4a")
  else if codecLower == "opus" then some (fun x => hasSub (pyLower (x.codec.getD "")) "opus")
  else none

/-- Whether one candidate passes the `get_audio_streams` codec filter. -/
def gasCodecPasses (codecLower : String) (s : StreamInfo) : Bool :=
  match audioCodecLambda codecLower with
  | some f => f s
  | none => hasSub (pyLower (s.codec.getD "")) codecLower

/-- Codec filtering of `get_audio_streams` (lines 382-401): when the filter
keeps at least one stream use the filtered list, otherwise fall back to the
whole list with a warning. -/
def gasApplyCodecFilter (streams : List StreamInfo) (codec : Option String) :
    List StreamInfo × List Diag :=
  if !truthyS codec then (streams, [])
  else if !(streams.filter (gasCodecPasses (pyLower (codec.getD "")))).isEmpty
  then (streams.filter (gasCodecPasses (pyLower (codec.getD ""))), [])
  else (streams, [.warnNoCodecStreams (codec.getD "")])

/-- Shared audio selection (line 404 in `get_audio_streams` and the identical
line 601 in the unified audio worker): smallest
`abs((x.bitrate or 0) - bitrate)`, first wins on ties. -/
def selectAudio (streams : List StreamInfo) (target : Int) : Option StreamInfo :=
  match streams with
  | [] => none
  | x :: xs => some (pyFoldMin (fun s => |s.bitrate.getD 0 - (target : Rat)|) x xs)

/-- `get_audio_streams` from the point where the format list is in hand
(lines 348-409). -/
def get_audio_streams (formats : List RawFormat) (bitrate : Int)
    (codec : Option String) : Except Unit (List StreamInfo × List Diag) :=
  let cands := gasCollect formats
  if cands.isEmpty then .error ()
  else
    let (pool, ws) := gasApplyCodecFilter cands codec
    match selectAudio pool bitrate with
    | none => .error ()
    | some best =>
      if best.bitrate == some (bitrate : Rat) then .ok ([best], ws)
      else .ok ([best], ws ++ [.warnBitrateMismatch bitrate best.bitrate])

/-! ## UnifiedOrchestrator: `get_unified_streams` (lines 418-672) -/

/-- Python `v > 0` where `v` may be `None`: comparing `None` with an int raises
`TypeError`, modelled as `Except.error ()`. -/
def pyGtZero : Option Rat → Except Unit Bool
  | none => .error ()
  | some q => .ok (decide (0 < q))

/-- The pre-filter of `get_unified_streams` (lines 465-481).  A format with a
falsy url is skipped; a video format needs a truthy non-`"none"` vcodec, no
`"manifest"` in its url and `"videoplayback"` in its url; an audio format needs
a truthy non-`"none"` acodec and `fmt.get('tbr', 0) > 0` — the last comparison
raises `TypeError` when `tbr` is present but `None` (the guards before it are
evaluated first thanks to `and` short-circuiting). -/
def unifiedPreFilter (iv ia : Bool) :
    List RawFormat → Except Unit (List RawFormat × List RawFormat)
  | [] => .ok ([], [])
  | fmt :: rest =>
    match pyGetD fmt.url "" with
    | none => unifiedPreFilter iv ia rest
    | some u =>
      if u.isEmpty then unifiedPreFilter iv ia rest
      else
        let vcodec := pyGet fmt.vcodec
        let acodec := pyGet fmt.acodec
        let isVid := iv && truthyS vcodec && !(vcodec == some "none") &&
          !hasSub u "manifest" && hasSub u "videoplayback"
        let audioPre := ia && truthyS acodec && !(acodec == some "none")
        match (if audioPre then pyGtZero (pyGetD fmt.tbr 0) else .ok false) with
        | .error e => .error e
        | .ok isAud =>
          match unifiedPreFilter iv ia rest with
          | .error e => .error e
          | .ok (vfs, afs) =>
            .ok ((if isVid then fmt :: vfs else vfs),
                 (if isAud then fmt :: afs else afs))

/-- Video codec matching of the unified video worker (lines 500-512), on
already lower-cased strings: plain substring or the video alias table. -/
def videoCodecMatch (codecLower vcodecLower : String) : Bool :=
  hasSub vcodecLower codecLower ||
  ((codecLower == "h264" || codecLower == "avc") && hasSub vcodecLower "avc1") ||
  (codecLower == "vp9" && (hasSub vcodecLower "vp9" || hasSub vcodecLower "vp09")) ||
  ((codecLower == "av1" || codecLower == "av01") &&
    (hasSub vcodecLower "av01" || hasSub vcodecLower "av1"))

/-- Audio codec matching of the unified audio worker (lines 571-583), on
already lower-cased strings: plain substring or the audio alias table. -/
def audioCodecMatch (codecLower acodecLower : String) : Bool :=
  hasSub acodecLower codecLower ||
  (codecLower == "aac" && hasSub acodecLower "mp4a") ||
  (codecLower == "mp4a" && hasSub acodecLower "mp4a") ||
  (codecLower == "opus" && hasSub acodecLower "opus")

/-- Worker-level failures (raised `ValueError`s, lines 489, 538, 562, 598).
`available` carries the distinct codec strings of the set comprehension, as an
order-insensitive deduplicated list (Python set iteration order is
arbitrary). -/
inductive BranchErr where
  | noFormats
  | noStreamsWithCodec (codec : Option String) (available : List (Option String))
deriving DecidableEq

/-- Stream construction of the unified video worker (lines 494-534).  The
worker runs on pre-filtered formats: their urls are truthy (so `fmt['url']`
cannot raise `KeyError`) and their vcodecs truthy (so `.lower()` cannot see
`None`); the `getD ""` defaults below are unreachable on such input. -/
def pvsCollect (videoCodec : Option String) : List RawFormat → List StreamInfo
  | [] => []
  | fmt :: rest =>
    let height := pyGetD fmt.height 0
    let width := pyGetD fmt.width 0
    let vcodec := pyGetD fmt.vcodec ""
    let keep :=
      if truthyS videoCodec then
        videoCodecMatch (pyLower (videoCodec.getD "")) (pyLower (vcodec.getD ""))
      else true
    if keep then
      { url := (pyGet fmt.url).getD "",
        ext := pyGetD fmt.ext "unknown",
        resolution := buildResolution (pyGet fmt.resolution) height width,
        height := height, width := width, bitrate := pyGet fmt.tbr,
        codec := vcodec, filesize := pyGet fmt.filesize,
        format_note := pyGet fmt.format_note,
        format_id := pyGet fmt.format_id } :: pvsCollect videoCodec rest
    else pvsCollect videoCodec rest

/-- The unified video worker `process_video_streams` (lines 483-554). -/
def process_video_streams (video_formats : List RawFormat)
    (video_quality : String) (video_codec : Option String) :
    Except BranchErr (List StreamInfo × List Diag) :=
  if video_formats.isEmpty then .error .noFormats
  else
    let target := parse_quality video_quality
    let streams := pvsCollect video_codec video_formats
    if streams.isEmpty then
      .error (.noStreamsWithCodec video_codec
        ((video_formats.map (fun f => pyGetD f.vcodec "")).dedup))
    else
      match selectVideo streams target with
      | some best => .ok ([best], [])
      | none => .error .noFormats

/-- Stream construction of the unified audio worker (lines 566-594); same
pre-filter guarantees as for the video worker. -/
def pasCollect (audioCodec : Option String) : List RawFormat → List StreamInfo
  | [] => []
  | fmt :: rest =>
    let bitrate := pyGetD fmt.tbr 0
    let acodec := pyGetD fmt.acodec ""
    let keep :=
      if truthyS audioCodec then
        audioCodecMatch (pyLower (audioCodec.getD "")) (pyLower (acodec.getD ""))
      else true
    if keep then
      { url := (pyGet fmt.url).getD "",
        ext := pyGetD fmt.ext "unknown", bitrate := bitrate,
        codec := acodec, filesize := pyGet fmt.filesize,
        format_note := pyGet fmt.format_note,
        format_id := pyGet fmt.format_id } :: pasCollect audioCodec rest
    else pasCollect audioCodec rest

/-- The unified audio worker `process_audio_streams` (lines 556-608).  Its only
log emissions are debug-level (lines 559, 602) and the error-level message on
the re-raise path, so the warning list of a successful run is empty. -/
def process_audio_streams (audio_formats : List RawFormat)
    (audio_bitrate : Int) (audio_codec : Option String) :
    Except BranchErr (List StreamInfo × List Diag) :=
  if audio_formats.isEmpty then .error .noFormats
  else
    let streams := pasCollect audio_codec audio_formats
    if streams.isEmpty then
      .error (.noStreamsWithCodec audio_codec
        ((audio_formats.map (fun f => pyGetD f.acodec "")).dedup))
    else
      match selectAudio streams audio_bitrate with
      | some best => .ok ([best], [])
      | none => .error .noFormats

/-- Outcome of awaiting one submitted branch (line 631): a result, a
`TimeoutError`, or an exception raised by the worker. -/
inductive BranchOutcome where
  | success (streams : List StreamInfo)
  | timeout
  | failure (e : BranchErr)
deriving DecidableEq

/-- Failures of the whole `get_unified_streams` call. -/
inductive UnifiedErr where
  /-- "At least one of include_video or include_audio must be True" (line 440). -/
  | invalidArgument
  /-- "No formats available for this video" (line 457). -/
  | noFormatsAtAll
  /-- The `TypeError` from comparing a `None` tbr with 0 in the pre-filter
  (line 480), re-raised as `ValueError` by the handler at line 670. -/
  | typeErrorNoneCompare
  /-- "... stream processing timed out" for a fatal branch timeout (line 641). -/
  | branchTimeout (branch : String)
  /-- A fatal re-raised worker error (line 651). -/
  | branchFailed (e : BranchErr)
  /-- "Failed to get both video and audio streams" (line 659). -/
  | totalFailure
deriving DecidableEq

/-- The merged result dict: `video` / `audio` are `none` when the key was never
written (branch not requested). -/
structure UnifiedOk where
  duration : Int
  video : Option (List StreamInfo)
  audio : Option (List StreamInfo)
deriving DecidableEq

/-- Handling of one awaited branch (lines 628-654): success records the
streams; timeout or a raised error is fatal when the other branch was not
requested, else records an empty list and continues. -/
def mergeBranch (stype : String) (out : BranchOutcome) (otherRequested : Bool) :
    Except UnifiedErr (List StreamInfo) :=
  match out with
  | .success s => .ok s
  | .timeout =>
    if !otherRequested then .error (.branchTimeout stype) else .ok []
  | .failure e =>
    if !otherRequested then .error (.branchFailed e) else .ok []

/-- Result collection and validation of `get_unified_streams` (lines 616-665):
the futures dict holds the video branch first (insertion order), then audio;
after both resolve, if both were requested and both lists are empty the call
fails. -/
def mergeUnified (iv ia : Bool) (vOut aOut : BranchOutcome) (duration : Int) :
    Except UnifiedErr UnifiedOk :=
  match (if iv then (mergeBranch "video" vOut ia).map some else .ok none) with
  | .error e => .error e
  | .ok video? =>
    match (if ia then (mergeBranch "audio" aOut iv).map some else .ok none) with
    | .error e => .error e
    | .ok audio? =>
      if iv && ia && (video?.getD []).isEmpty && (audio?.getD []).isEmpty then
        .error .totalFailure
      else .ok { duration := duration, video := video?, audio := audio? }

/-- A synchronously-run worker can only succeed or raise (no timeout). -/
def runBranch (r : Except BranchErr (List StreamInfo × List Diag)) :
    BranchOutcome :=
  match r with
  | .ok (s, _) => .success s
  | .error e => .failure e

/-- `get_unified_streams` from the point where the shared fetch has produced
`duration` and the format list (lines 439-665), with both branches evaluated
synchronously (their 20s timeout cannot fire in this model). -/
def get_unified_streams (formats : List RawFormat) (audio_bitrate : Int)
    (video_quality : String) (audio_codec video_codec : Option String)
    (include_video include_audio : Bool) (duration : Int) :
    Except UnifiedErr UnifiedOk :=
  if !include_video && !include_audio then .error .invalidArgument
  else if formats.isEmpty then .error .noFormatsAtAll
  else
    match unifiedPreFilter include_video include_audio formats with
    | .error _ => .error .typeErrorNoneCompare
    | .ok (vfs, afs) =>
      let vOut := runBranch (process_video_streams vfs video_quality video_codec)
      let aOut := runBranch (process_audio_streams afs audio_bitrate audio_codec)
      mergeUnified include_video include_audio vOut aOut duration

/-! ## RetryingFetcher: `_get_ytdlp_info` (lines 174-215)

The provider call of attempt `i` is modelled by the `i`-th entry of an outcome
list whose length is `max_retries`: a returned info dict (`some p` when truthy,
`none` when falsy), a raised `yt_dlp.utils.DownloadError`, or any other raised
exception. -/

inductive FetchOutcome where
  | ok (info : Option Nat)
  | downloadError (msg : String)
  | otherError (msg : String)
deriving DecidableEq

/-- Observable events of one `_get_ytdlp_info` run: provider invocations (each
labelled with its outcome) and the `time.sleep(self.retry_delay)` calls. -/
inductive FetchEvent where
  | attempt (o : FetchOutcome)
  | sleep (delay : Rat)
deriving DecidableEq

/-- How one `_get_ytdlp_info` run ends. -/
inductive FetchResult where
  /-- `return info` on a truthy info (line 193). -/
  | success (info : Nat)
  /-- `raise last_error` with a captured `DownloadError` (line 215). -/
  | raisedLast (msg : String)
  /-- `raise last_error` with `last_error` still `None`: every attempt returned
  a falsy info and no `DownloadError` was ever captured, so line 215 raises
  `TypeError` (`raise None`). -/
  | raisedNone
  /-- A non-`DownloadError` exception re-raised immediately (line 212). -/
  | raisedOther (msg : String)
deriving DecidableEq

def FetchEvent.isAttempt : FetchEvent → Bool
  | .attempt _ => true
  | .sleep _ => false

/-- The retry loop (lines 182-215): `last` is the `last_error` variable.  The
sleep happens only inside the `DownloadError` handler and only when this was
not the final attempt (`attempt < self.max_retries - 1`, i.e. the remaining
outcome list is non-empty). -/
def getInfoAux (delay : Rat) : List FetchOutcome → Option String →
    FetchResult × List FetchEvent
  | [], some m => (.raisedLast m, [])
  | [], none => (.raisedNone, [])
  | o :: rest, last =>
    match o with
    | .ok (some p) => (.success p, [.attempt o])
    | .ok none =>
      let r := getInfoAux delay rest last
      (r.1, .attempt o :: r.2)
    | .downloadError m =>
      let r := getInfoAux delay rest (some m)
      if rest.isEmpty then (r.1, [.attempt o])
      else (r.1, .attempt o :: .sleep delay :: r.2)
    | .otherError m => (.raisedOther m, [.attempt o])

/-- `_get_ytdlp_info`, given the outcome of each potential attempt
(`outcomes.length = self.max_retries`) and `self.retry_delay`. -/
def getYtdlpInfo (outcomes : List FetchOutcome) (retryDelay : Rat) :
    FetchResult × List FetchEvent :=
  getInfoAux retryDelay outcomes none

/-- An outcome at which the loop keeps going: a falsy info or a caught
`DownloadError`. -/
def nonStopping (o : FetchOutcome) : Prop :=
  o = .ok none ∨ ∃ m, o = .downloadError m

/-- Well-formed event trace: every sleep carries the configured fixed delay
and immediately follows an attempt whose outcome was a `DownloadError`. -/
inductive GoodTrace (delay : Rat) : List FetchEvent → Prop
  | nil : GoodTrace delay []
  | att (o : FetchOutcome) (rest : List FetchEvent) :
      GoodTrace delay rest → GoodTrace delay (.attempt o :: rest)
  | attSleep (m : String) (rest : List FetchEvent) :
      GoodTrace delay rest →
      GoodTrace delay (.attempt (.downloadError m) :: .sleep delay :: rest)

/-! ## StatusProbe: `check_status` (lines 106-166) -/

/-- The ordered classification table (lines 145-150; Python dicts iterate in
insertion order, and line 152 takes the first match). -/
def status_map : List (String × String) :=
  [("Private video", "private"), ("Video unavailable", "unavailable"),
   ("age-restricted", "age_restricted"), ("removed", "removed")]

/-- First-match-wins classification of a `DownloadError` message (line 152). -/
def classifyStatus (errorMsg : String) : String :=
  match status_map.find? (fun kv => hasSub errorMsg kv.1) with
  | some kv => kv.2
  | none => "error"

structure StatusResult where
  available : Bool
  status : String
  error : Option String
deriving DecidableEq

/-- `check_status`, given the outcome of its single minimal-mode provider call.
Every branch returns a structured result; nothing is re-raised. -/
def check_status (outcome : FetchOutcome) : StatusResult :=
  match outcome with
  | .ok (some _) => { available := true, status := "available", error := none }
  | .ok none =>
    { available := false, status := "unavailable",
      error := some "Video information not available" }
  | .downloadError m =>
    { available := false, status := classifyStatus m, error := some m }
  | .otherError m =>
    { available := false, status := "error",
      error := some ("Unexpected error: " ++ m) }

/-! ## Shape lemmas for the four selection paths -/

theorem selectVideo_mem {streams : List StreamInfo} {target : Int}
    {r : StreamInfo} (h : selectVideo streams target = some r) : r ∈ streams := by
  unfold selectVideo at h
  cases hf : streams.filter (fun s => s.height == some target) with
  | cons e es =>
    rw [hf] at h
    have hm : pyFoldMax (fun x => x.bitrate.getD 0) e es ∈ e :: es :=
      pyFoldMax_mem _ e es
    rw [← hf] at hm
    injection h with h1
    exact List.mem_of_mem_filter (h1 ▸ hm)
  | nil =>
    rw [hf] at h
    cases streams with
    | nil => exact absurd h (by simp)
    | cons x xs =>
      injection h with h1
      exact h1 ▸ pyFoldMin_mem _ x xs

theorem selectAudio_mem {streams : List StreamInfo} {target : Int}
    {r : StreamInfo} (h : selectAudio streams target = some r) : r ∈ streams := by
  unfold selectAudio at h
  cases streams with
  | nil => exact absurd h (by simp)
  | cons x xs =>
    injection h with h1
    exact h1 ▸ pyFoldMin_mem _ x xs

theorem get_video_streams_ok {formats : List RawFormat} {quality : String}
    {res : List StreamInfo} {ws : List Diag}
    (h : get_video_streams formats quality = .ok (res, ws)) :
    ∃ r, res = [r] ∧
      selectVideo (gvsCollect formats) (parse_quality quality) = some r := by
  unfold get_video_streams at h
  unfold selectVideo
  cases hf : (gvsCollect formats).filter
      (fun s => s.height == some (parse_quality quality)) with
  | cons e es =>
    simp only [hf] at h
    simp only [Except.ok.injEq, Prod.mk.injEq] at h
    exact ⟨_, h.1.symm, rfl⟩
  | nil =>
    simp only [hf] at h
    cases hg : gvsCollect formats with
    | nil => rw [hg] at h; exact absurd h (by simp)
    | cons x xs =>
      rw [hg] at h
      simp only [Except.ok.injEq, Prod.mk.injEq] at h
      exact ⟨_, h.1.symm, rfl⟩

theorem process_video_streams_ok {vfs : List RawFormat} {quality : String}
    {vc : Option String} {res : List StreamInfo} {ws : List Diag}
    (h : process_video_streams vfs quality vc = .ok (res, ws)) :
    ∃ r, res = [r] ∧ ws = [] ∧
      selectVideo (pvsCollect vc vfs) (parse_quality quality) = some r := by
  unfold process_video_streams at h
  by_cases hempty : vfs.isEmpty
  · simp [hempty] at h
  · simp only [hempty, Bool.false_eq_true, if_false] at h
    by_cases hse : (pvsCollect vc vfs).isEmpty
    · simp [hse] at h
    · simp only [hse, Bool.false_eq_true, if_false] at h
      cases hsel : selectVideo (pvsCollect vc vfs) (parse_quality quality) with
      | none => rw [hsel] at h; exact absurd h (by simp)
      | some best =>
        rw [hsel] at h
        simp only [Except.ok.injEq, Prod.mk.injEq] at h
        exact ⟨best, h.1.symm, h.2.symm, rfl⟩

theorem get_audio_streams_ok {formats : List RawFormat} {bitrate : Int}
    {codec : Option String} {res : List StreamInfo} {ws : List Diag}
    (h : get_audio_streams formats bitrate codec = .ok (res, ws)) :
    ∃ best, res = [best] ∧
      selectAudio (gasApplyCodecFilter (gasCollect formats) codec).1 bitrate
        = some best ∧
      ws = (gasApplyCodecFilter (gasCollect formats) codec).2 ++
        (if best.bitrate == some (bitrate : Rat) then []
         else [.warnBitrateMismatch bitrate best.bitrate]) := by
  unfold get_audio_streams at h
  by_cases hempty : (gasCollect formats).isEmpty
  · simp [hempty] at h
  · simp only [hempty, Bool.false_eq_true, if_false] at h
    cases hsel : selectAudio (gasApplyCodecFilter (gasCollect formats) codec).1
        bitrate with
    | none => rw [hsel] at h; exact absurd h (by simp)
    | some best =>
      rw [hsel] at h
      cases hbb : best.bitrate == some (bitrate : Rat) with
      | true =>
        simp only [hbb, if_true, Except.ok.injEq, Prod.mk.injEq] at h
        refine ⟨best, h.1.symm, rfl, ?_⟩
        rw [if_pos hbb, List.append_nil]
        exact h.2.symm
      | false =>
        simp only [hbb, Bool.false_eq_true, if_false, Except.ok.injEq,
          Prod.mk.injEq] at h
        refine ⟨best, h.1.symm, rfl, ?_⟩
        rw [if_neg (by simp [hbb])]
        exact h.2.symm

theorem process_audio_streams_ok {afs : List RawFormat} {bitrate : Int}
    {ac : Option String} {res : List StreamInfo} {ws : List Diag}
    (h : process_audio_streams afs bitrate ac = .ok (res, ws)) :
    ∃ best, res = [best] ∧ ws = [] ∧
      selectAudio (pasCollect ac afs) bitrate = some best := by
  unfold process_audio_streams at h
  by_cases hempty : afs.isEmpty
  · simp [hempty] at h
  · simp only [hempty, Bool.false_eq_true, if_false] at h
    by_cases hse : (pasCollect ac afs).isEmpty
    · simp [hse] at h
    · simp only [hse, Bool.false_eq_true, if_false] at h
      cases hsel : selectAudio (pasCollect ac afs) bitrate with
      | none => rw [hsel] at h; exact absurd h (by simp)
      | some best =>
        rw [hsel] at h
        simp only [Except.ok.injEq, Prod.mk.injEq] at h
        exact ⟨best, h.1.symm, h.2.symm, rfl⟩

/-- The warning list produced by the audio codec filter is either empty or the
single codec-fallback warning. -/
theorem gasFilter_snd_shape (streams : List StreamInfo) (codec : Option String) :
    (gasApplyCodecFilter streams codec).2 = [] ∨
    ∃ c, codec = some c ∧
      (gasApplyCodecFilter streams codec).2 = [Diag.warnNoCodecStreams c] := by
  unfold gasApplyCodecFilter
  by_cases ht : truthyS codec
  · simp only [ht, Bool.not_true, Bool.false_eq_true, if_false]
    by_cases hf : (streams.filter
        (gasCodecPasses (pyLower (codec.getD "")))).isEmpty
    · simp only [hf, Bool.not_true, Bool.false_eq_true, if_false]
      cases codec with
      | none => simp [truthyS] at ht
      | some c => exact Or.inr ⟨c, rfl, rfl⟩
    · simp [hf]
  · simp [ht]

/-! ## Claims -/

/-- Specification of the video selection policy: on an exact height match,
the first candidate (in encounter order) with maximal bitrate among the exact
matches; otherwise the first candidate minimizing the absolute height
distance. -/
def VideoSelSpec (streams : List StreamInfo) (target : Int) (r : StreamInfo) :
    Prop :=
  ((∃ s ∈ streams, s.height = some target) →
    r.height = some target ∧
    (∀ s ∈ streams, s.height = some target →
      s.bitrate.getD 0 ≤ r.bitrate.getD 0) ∧
    ∃ pre post,
      streams.filter (fun s => s.height == some target) = pre ++ r :: post ∧
      ∀ a ∈ pre, a.bitrate.getD 0 < r.bitrate.getD 0) ∧
  ((¬ ∃ s ∈ streams, s.height = some target) →
    (∀ s ∈ streams, |r.height.getD 0 - target| ≤ |s.height.getD 0 - target|) ∧
    ∃ pre post, streams = pre ++ r :: post ∧
      ∀ a ∈ pre, |r.height.getD 0 - target| < |a.height.getD 0 - target|)

theorem filter_height_eq_nil_iff (streams : List StreamInfo) (target : Int) :
    streams.filter (fun s => s.height == some target) = [] ↔
      ¬ ∃ s ∈ streams, s.height = some target := by
  rw [List.filter_eq_nil_iff]
  constructor
  · rintro h ⟨s, hs, he⟩
    exact h s hs (by simp [he])
  · intro h s hs hp
    exact h ⟨s, hs, by simpa using hp⟩

/-- C1: for every non-empty video candidate list and normalized target height,
video selection (shared by `get_video_streams` and the unified video branch)
returns exactly one entry: the maximal-bitrate exact-height match when one
exists (missing bitrate as 0, first wins on ties), otherwise the candidate
minimizing `abs(height - target)` (missing height as 0, first wins on ties);
and both paths return exactly that selection as a one-element list. -/
theorem C1_video_selection :
    (∀ (streams : List StreamInfo) (target : Int), streams ≠ [] →
      ∃ r, selectVideo streams target = some r ∧ VideoSelSpec streams target r) ∧
    (∀ formats quality res ws,
      get_video_streams formats quality = .ok (res, ws) →
      ∃ r, res = [r] ∧
        selectVideo (gvsCollect formats) (parse_quality quality) = some r) ∧
    (∀ vfs quality vc res ws,
      process_video_streams vfs quality vc = .ok (res, ws) →
      ∃ r, res = [r] ∧
        selectVideo (pvsCollect vc vfs) (parse_quality quality) = some r) := by
  refine ⟨?_, ?_, ?_⟩
  · intro streams target hne
    unfold selectVideo
    cases hf : streams.filter (fun s => s.height == some target) with
    | cons e es =>
      set r := pyFoldMax (fun x => x.bitrate.getD 0) e es with hr
      obtain ⟨pre, post, hsplit, hmax, hpre⟩ :=
        pyFoldMax_spec (fun x => x.bitrate.getD 0) e es
      have hrmem : r ∈ streams.filter (fun s => s.height == some target) := by
        rw [hf, hsplit]; simp
      have hrprop := List.mem_filter.mp hrmem
      refine ⟨r, rfl, ?_, ?_⟩
      · intro _
        refine ⟨by simpa using hrprop.2, ?_, pre, post, by rw [hf]; exact hsplit, hpre⟩
        intro s hs he
        exact hmax s (by rw [← hf]; exact List.mem_filter.mpr ⟨hs, by simp [he]⟩)
      · intro hno
        exact absurd ⟨r, hrprop.1, by simpa using hrprop.2⟩ hno
    | nil =>
      cases streams with
      | nil => exact absurd rfl hne
      | cons x xs =>
        set r := pyFoldMin (fun s => |s.height.getD 0 - target|) x xs with hr
        obtain ⟨pre, post, hsplit, hmin, hpre⟩ :=
          pyFoldMin_spec (fun s => |s.height.getD 0 - target|) x xs
        refine ⟨r, rfl, ?_, ?_⟩
        · intro hex
          exact absurd hex ((filter_height_eq_nil_iff (x :: xs) target).mp hf)
        · intro _
          exact ⟨hmin, pre, post, hsplit, hpre⟩
  · intro formats quality res ws h
    exact get_video_streams_ok h
  · intro vfs quality vc res ws h
    obtain ⟨r, h1, -, h2⟩ := process_video_streams_ok h
    exact ⟨r, h1, h2⟩

/-- The spec's concrete scenario for video selection: heights 720/1080/1080
with bitrates 2000/4000/3000. -/
def c1Candidates : List StreamInfo :=
  [{ url := "u1", ext := some "mp4", height := some 720, bitrate := some 2000 },
   { url := "u2", ext := some "mp4", height := some 1080, bitrate := some 4000 },
   { url := "u3", ext := some "mp4", height := some 1080, bitrate := some 3000 }]

/-- Witness for C1 at the spec's concrete scenario: target `1080p` selects the
`{height: 1080, bitrate: 4000}` entry. -/
theorem C1_video_selection_witness :
    (c1Candidates ≠ [] ∧
      ∃ r, selectVideo c1Candidates 1080 = some r ∧
        VideoSelSpec c1Candidates 1080 r) ∧
    selectVideo c1Candidates 1080 = some
      { url := "u2", ext := some "mp4", height := some 1080,
        bitrate := some 4000 } := by
  refine ⟨⟨by decide, C1_video_selection.1 c1Candidates 1080 (by decide)⟩, ?_⟩
  decide

/-- Specification of the audio selection policy: the first candidate (in
encounter order) minimizing the absolute bitrate distance, missing bitrate
treated as 0. -/
def AudioSelSpec (streams : List StreamInfo) (target : Int) (r : StreamInfo) :
    Prop :=
  (∀ s ∈ streams,
    |r.bitrate.getD 0 - (target : Rat)| ≤ |s.bitrate.getD 0 - (target : Rat)|) ∧
  ∃ pre post, streams = pre ++ r :: post ∧
    ∀ a ∈ pre,
      |r.bitrate.getD 0 - (target : Rat)| < |a.bitrate.getD 0 - (target : Rat)|

/-- C2 counterexample: the unified audio branch returns a candidate whose
bitrate (128) differs from the requested one (192) yet emits no warning-level
diagnostic (its only emissions are debug-level), contradicting the claim that
both audio paths warn on a bitrate mismatch. -/
theorem C2_unified_audio_counterexample :
    process_audio_streams
        [{ acodec := some (some "opus"), tbr := some (some 128),
           url := some (some "uA"), ext := some (some "webm") }] 192 none =
      .ok ([{ url := "uA", ext := some "webm", bitrate := some 128,
              codec := some "opus" }], []) ∧
    some (128 : Rat) ≠ some (192 : Rat) := by
  refine ⟨by rfl, by decide⟩

/-- C2 (amended): every non-empty audio candidate list yields exactly the
first candidate minimizing `abs(bitrate - target)` (missing bitrate as 0),
regardless of an exact match, and both paths succeed; the single-stream path
(`get_audio_streams`) emits the warning-level mismatch diagnostic exactly when
the returned bitrate differs from the requested one, while the unified audio
branch emits no warning-level diagnostic at all. -/
theorem C2_audio_selection_amended :
    (∀ (streams : List StreamInfo) (target : Int), streams ≠ [] →
      ∃ r, selectAudio streams target = some r ∧ AudioSelSpec streams target r) ∧
    (∀ formats target codec res ws,
      get_audio_streams formats target codec = .ok (res, ws) →
      ∃ best, res = [best] ∧
        (Diag.warnBitrateMismatch target best.bitrate ∈ ws ↔
          best.bitrate ≠ some (target : Rat))) ∧
    (∀ afs target ac res ws,
      process_audio_streams afs target ac = .ok (res, ws) →
      ∃ best, res = [best] ∧ ws = [] ∧
        selectAudio (pasCollect ac afs) target = some best) := by
  refine ⟨?_, ?_, ?_⟩
  · intro streams target hne
    cases streams with
    | nil => exact absurd rfl hne
    | cons x xs =>
      obtain ⟨pre, post, hsplit, hmin, hpre⟩ :=
        pyFoldMin_spec (fun s => |s.bitrate.getD 0 - (target : Rat)|) x xs
      exact ⟨_, rfl, hmin, pre, post, hsplit, hpre⟩
  · intro formats target codec res ws h
    obtain ⟨best, hres, hsel, hws⟩ := get_audio_streams_ok h
    refine ⟨best, hres, ?_⟩
    subst hws
    rcases gasFilter_snd_shape (gasCollect formats) codec with h0 | ⟨c, -, h0⟩ <;>
      rw [h0] <;>
      cases hbb : best.bitrate == some (target : Rat) <;>
      simp_all [beq_iff_eq]
  · intro afs target ac res ws h
    exact process_audio_streams_ok h

/-- Witness for C2 (amended) at a concrete single-candidate list. -/
theorem C2_audio_selection_amended_witness :
    ([({ url := "uA", ext := some "webm", bitrate := some 128,
         codec := some "opus" } : StreamInfo)] ≠ []) ∧
    ∃ r, selectAudio
        [{ url := "uA", ext := some "webm", bitrate := some 128,
           codec := some "opus" }] 192 = some r ∧
      AudioSelSpec
        [{ url := "uA", ext := some "webm", bitrate := some 128,
           codec := some "opus" }] 192 r := by
  exact ⟨by decide, C2_audio_selection_amended.1 _ 192 (by decide)⟩

theorem lookupTable_nonneg {tbl : List (String × Int)}
    (hv : ∀ kv ∈ tbl, 0 ≤ kv.2) {q : String} {v : Int}
    (h : lookupTable tbl q = some v) : 0 ≤ v := by
  unfold lookupTable at h
  cases hf : tbl.find? (fun kv => kv.1 == q) with
  | none => rw [hf] at h; exact absurd h (by simp)
  | some kv =>
    rw [hf] at h
    injection h with hkv
    exact hkv ▸ hv kv (List.mem_of_find?_eq_some hf)

/-- The spec-side notion of an unparseable token: no rule of the
`_parse_quality` chain applies to the normalized (lower-cased, stripped)
token. -/
def specNoRuleApplies (s : String) : Prop :=
  (pyEndsWith (pyStrip (pyLower s)) 'p' = false ∨
    pyInt (strDropLast (pyStrip (pyLower s))) = none) ∧
  lookupTable k_formats (pyStrip (pyLower s)) = none ∧
  pyIsDigit (pyStrip (pyLower s)) = false ∧
  lookupTable aliases (pyStrip (pyLower s)) = none

instance specNoRuleAppliesDec (s : String) : Decidable (specNoRuleApplies s) := by
  unfold specNoRuleApplies
  exact inferInstance

/-- C3 counterexample: `"-2p"` normalizes to `-2 < 0`, so the result is not
always ≥ 0; and `"0p"` has a parseable numeric prefix (`int("0") = 0`) yet
yields 0, so 0 is not returned exactly when the token is unparseable. -/
theorem C3_parse_quality_counterexample :
    parse_quality "-2p" = -2 ∧ parse_quality "0p" = 0 ∧ pyInt "0" = some 0 := by
  refine ⟨by decide, by decide, by decide⟩

/-- C3 (amended): `_parse_quality` never raises (the embedding is a total
function); its result is ≥ 0 unless the normalized token ends in `'p'` and its
numeric prefix parses as a negative integer, in which case that negative value
is returned; and a token to which no parse rule applies yields 0 (0 is also
yielded by some parseable tokens such as `"0"` or `"0p"`). -/
theorem C3_parse_quality_amended (s : String) :
    (0 ≤ parse_quality s ∨
      (pyEndsWith (pyStrip (pyLower s)) 'p' = true ∧
        pyInt (strDropLast (pyStrip (pyLower s))) = some (parse_quality s) ∧
        parse_quality s < 0)) ∧
    (specNoRuleApplies s → parse_quality s = 0) := by
  by_cases he : s.isEmpty = true
  · have hps : parse_quality s = 0 := by rw [parse_quality, if_pos he]
    rw [hps]
    exact ⟨Or.inl le_rfl, fun _ => rfl⟩
  · by_cases hp : pyEndsWith (pyStrip (pyLower s)) 'p' = true
    · cases hi : pyInt (strDropLast (pyStrip (pyLower s))) with
      | some n =>
        have hps : parse_quality s = n := by
          rw [parse_quality, if_neg he, if_pos hp, hi]
        rw [hps]
        constructor
        · rcases le_or_lt 0 n with hn | hn
          · exact Or.inl hn
          · exact Or.inr ⟨hp, rfl, hn⟩
        · intro hnra
          rcases hnra.1 with hf | hnone
          · rw [hp] at hf
            exact absurd hf (by simp)
          · rw [hnone] at hi
            exact absurd hi (by simp)
      | none =>
        have hps : parse_quality s = 0 := by
          rw [parse_quality, if_neg he, if_pos hp, hi]
        rw [hps]
        exact ⟨Or.inl le_rfl, fun _ => rfl⟩
    · cases hk : lookupTable k_formats (pyStrip (pyLower s)) with
      | some v =>
        have hps : parse_quality s = v := by
          rw [parse_quality, if_neg he, if_neg hp, hk]
        rw [hps]
        constructor
        · exact Or.inl (lookupTable_nonneg (by decide) hk)
        · intro hnra
          rw [hnra.2.1] at hk
          exact absurd hk (by simp)
      | none =>
        by_cases hd : pyIsDigit (pyStrip (pyLower s)) = true
        · have hps : parse_quality s = (pyInt (pyStrip (pyLower s))).getD 0 := by
            rw [parse_quality, if_neg he, if_neg hp, hk, if_pos hd]
          rw [hps]
          refine ⟨Or.inl (pyInt_getD_nonneg hd), ?_⟩
          intro hnra
          rw [hnra.2.2.1] at hd
          exact absurd hd (by simp)
        · cases ha : lookupTable aliases (pyStrip (pyLower s)) with
          | some v =>
            have hps : parse_quality s = v := by
              rw [parse_quality, if_neg he, if_neg hp, hk, if_neg hd, ha]
            rw [hps]
            constructor
            · exact Or.inl (lookupTable_nonneg (by decide) ha)
            · intro hnra
              rw [hnra.2.2.2] at ha
              exact absurd ha (by simp)
          | none =>
            have hps : parse_quality s = 0 := by
              rw [parse_quality, if_neg he, if_neg hp, hk, if_neg hd, ha]
            rw [hps]
            exact ⟨Or.inl le_rfl, fun _ => rfl⟩

/-- Witness for C3 (amended) at the unparseable token `"zzz"`. -/
theorem C3_parse_quality_amended_witness :
    specNoRuleApplies "zzz" ∧ parse_quality "zzz" = 0 := by
  exact ⟨by decide, (C3_parse_quality_amended "zzz").2 (by decide)⟩

/-- Spec-side codec rule for the unified video branch: case-insensitive
substring containment or the video alias table. -/
def specVideoMatchP (filt codecStr : String) : Prop :=
  specSubstr (pyLower filt) (pyLower codecStr) ∨
  ((pyLower filt = "h264" ∨ pyLower filt = "avc") ∧
    specSubstr "avc1" (pyLower codecStr)) ∨
  (pyLower filt = "vp9" ∧
    (specSubstr "vp9" (pyLower codecStr) ∨ specSubstr "vp09" (pyLower codecStr))) ∨
  ((pyLower filt = "av1" ∨ pyLower filt = "av01") ∧
    (specSubstr "av01" (pyLower codecStr) ∨ specSubstr "av1" (pyLower codecStr)))

/-- Spec-side codec rule for the unified audio branch: case-insensitive
substring containment or the audio alias table. -/
def specAudioMatchP (filt codecStr : String) : Prop :=
  specSubstr (pyLower filt) (pyLower codecStr) ∨
  ((pyLower filt = "aac" ∨ pyLower filt = "mp4a") ∧
    specSubstr "mp4a" (pyLower codecStr)) ∨
  (pyLower filt = "opus" ∧ specSubstr "opus" (pyLower codecStr))

/-- Spec-side rule actually implemented by `get_audio_streams`: for the three
table tokens the alias containment alone decides (no substring disjunct);
any other token is matched by plain substring containment. -/
def specGasMatchP (filt codecStr : String) : Prop :=
  if pyLower filt = "aac" ∨ pyLower filt = "mp4a" then
    specSubstr "mp4a" (pyLower codecStr)
  else if pyLower filt = "opus" then specSubstr "opus" (pyLower codecStr)
  else specSubstr (pyLower filt) (pyLower codecStr)

/-- C4 counterexample: in the `get_audio_streams` path the filter token
`"aac"` does not pass a candidate whose codec string is exactly `"aac"`, even
though the token is a plain substring of the codec string — so that path is
not "substring OR alias table". -/
theorem C4_codec_matching_counterexample :
    gasCodecPasses (pyLower "aac")
      { url := "u", ext := none, codec := some "aac" } = false ∧
    specSubstr (pyLower "aac") (pyLower "aac") := by
  exact ⟨by decide, ⟨[], [], by decide⟩⟩

/-- C4 (amended): the unified video branch matches by substring or the video
alias table; the unified audio branch matches by substring or the audio alias
table; but `get_audio_streams` uses the alias containment alone when the
filter token is `aac`/`mp4a`/`opus` (no substring disjunct), and plain
substring containment otherwise — all case-insensitively. -/
theorem C4_codec_matching_amended (filt codecStr : String) :
    (videoCodecMatch (pyLower filt) (pyLower codecStr) = true ↔
      specVideoMatchP filt codecStr) ∧
    (audioCodecMatch (pyLower filt) (pyLower codecStr) = true ↔
      specAudioMatchP filt codecStr) ∧
    (∀ s : StreamInfo, s.codec = some codecStr →
      (gasCodecPasses (pyLower filt) s = true ↔ specGasMatchP filt codecStr)) := by
  refine ⟨?_, ?_, ?_⟩
  · unfold videoCodecMatch specVideoMatchP
    simp only [Bool.or_eq_true, Bool.and_eq_true, beq_iff_eq, hasSub_iff]
    tauto
  · unfold audioCodecMatch specAudioMatchP
    simp only [Bool.or_eq_true, Bool.and_eq_true, beq_iff_eq, hasSub_iff]
    tauto
  · intro s hc
    unfold gasCodecPasses audioCodecLambda specGasMatchP
    by_cases h1 : pyLower filt = "aac"
    · simp [h1, hc, hasSub_iff]
    · by_cases h2 : pyLower filt = "mp4a"
      · simp [h1, h2, hc, hasSub_iff]
      · by_cases h3 : pyLower filt = "opus"
        · simp [h1, h2, h3, hc, hasSub_iff]
        · simp [h1, h2, h3, hc, hasSub_iff]

/-- Witness for C4 (amended): `vp9` matches a `vp09.00.10.08` video codec,
and for a `get_audio_streams` candidate with codec `"opus"` the filter
`"opus"` passes. -/
theorem C4_codec_matching_amended_witness :
    specVideoMatchP "vp9" "vp09.00.10.08" ∧
    specGasMatchP "opus" "opus" := by
  constructor
  · exact (C4_codec_matching_amended "vp9" "vp09.00.10.08").1.mp (by decide)
  · exact ((C4_codec_matching_amended "opus" "opus").2.2
      { url := "u", ext := none, codec := some "opus" } rfl).mp (by decide)

/-- C5: when a codec filter excludes every candidate, `get_audio_streams`
falls back to selecting the best bitrate match from the unfiltered candidate
set and emits a warning, while the unified audio branch fails outright with an
error listing the distinct available codec strings. -/
theorem C5_codec_filter_exhaustion :
    (∀ (formats : List RawFormat) (bitrate : Int) (c : String), c ≠ "" →
      gasCollect formats ≠ [] →
      (∀ s ∈ gasCollect formats, gasCodecPasses (pyLower c) s = false) →
      ∃ best, get_audio_streams formats bitrate (some c) =
          .ok ([best], Diag.warnNoCodecStreams c ::
            (if best.bitrate == some (bitrate : Rat) then []
             else [.warnBitrateMismatch bitrate best.bitrate])) ∧
        selectAudio (gasCollect formats) bitrate = some best) ∧
    (∀ (afs : List RawFormat) (bitrate : Int) (ac : Option String),
      afs ≠ [] → pasCollect ac afs = [] →
      process_audio_streams afs bitrate ac =
        .error (.noStreamsWithCodec ac
          ((afs.map (fun f => pyGetD f.acodec "")).dedup)) ∧
      ∀ x, x ∈ (afs.map (fun f => pyGetD f.acodec "")).dedup ↔
        x ∈ afs.map (fun f => pyGetD f.acodec "")) := by
  constructor
  · intro formats bitrate c hc hne hall
    have hie : c.isEmpty = false := by
      cases hh : c.isEmpty with
      | false => rfl
      | true => exact absurd ((String.isEmpty_iff c).mp hh) hc
    have hfilter : (gasCollect formats).filter (gasCodecPasses (pyLower c)) = [] :=
      List.filter_eq_nil_iff.mpr (fun s hs => by simp [hall s hs])
    have hgac : gasApplyCodecFilter (gasCollect formats) (some c) =
        (gasCollect formats, [Diag.warnNoCodecStreams c]) := by
      unfold gasApplyCodecFilter
      simp [truthyS, hie, hfilter]
    cases hcand : gasCollect formats with
    | nil => exact absurd hcand hne
    | cons x xs =>
      rw [hcand] at hgac
      refine ⟨pyFoldMin (fun s => |s.bitrate.getD 0 - (bitrate : Rat)|) x xs, ?_, ?_⟩
      · unfold get_audio_streams
        cases hbb : (pyFoldMin
            (fun s => |s.bitrate.getD 0 - (bitrate : Rat)|) x xs).bitrate
            == some (bitrate : Rat) with
        | true =>
          have hb2 : (pyFoldMin
              (fun s => |s.bitrate.getD 0 - (bitrate : Rat)|) x xs).bitrate
              = some (bitrate : Rat) := by simpa using hbb
          simp [hcand, hgac, selectAudio, hb2]
        | false =>
          have hb2 : ¬ (pyFoldMin
              (fun s => |s.bitrate.getD 0 - (bitrate : Rat)|) x xs).bitrate
              = some (bitrate : Rat) := by simpa using hbb
          simp [hcand, hgac, selectAudio, hb2]
      · rfl
  · intro afs bitrate ac hne hpc
    constructor
    · have hie : afs.isEmpty = false := by
        cases hh : afs.isEmpty with
        | false => rfl
        | true => exact absurd (List.isEmpty_iff.mp hh) hne
      unfold process_audio_streams
      simp [hie, hpc]
    · intro x
      exact List.mem_dedup

/-- The audio format used by the C5 witness: an `opus` candidate that a
`"flac"` filter excludes. -/
def c5Fmt : RawFormat :=
  { acodec := some (some "opus"), tbr := some (some 128),
    url := some (some "u"), ext := some (some "webm") }

/-- Witness for C5 at a concrete `opus`-only candidate list with a `flac`
filter. -/
theorem C5_codec_filter_exhaustion_witness :
    (∃ best, get_audio_streams [c5Fmt] 192 (some "flac") =
        .ok ([best], Diag.warnNoCodecStreams "flac" ::
          (if best.bitrate == some (192 : Rat) then []
           else [.warnBitrateMismatch 192 best.bitrate])) ∧
      selectAudio (gasCollect [c5Fmt]) 192 = some best) ∧
    process_audio_streams [c5Fmt] 192 (some "flac") =
      .error (.noStreamsWithCodec (some "flac")
        (([c5Fmt].map (fun f => pyGetD f.acodec "")).dedup)) := by
  constructor
  · exact C5_codec_filter_exhaustion.1 [c5Fmt] 192 "flac"
      (by decide) (by decide) (by decide)
  · exact (C5_codec_filter_exhaustion.2 [c5Fmt] 192 (some "flac")
      (by decide) (by decide)).1

/-- A branch outcome that did not succeed: a timeout or a raised error. -/
def badOutcome (o : BranchOutcome) : Prop :=
  o = .timeout ∨ ∃ e, o = .failure e

/-- C6: in `get_unified_streams`, a branch that times out or raises is fatal
to the whole call when the other branch was not requested; when the other
branch was requested the failed branch is recorded as an empty list and the
call continues — succeeding with a single populated branch as a partial
success — and when both branches were requested and both end up empty the
whole call fails. -/
theorem C6_unified_branch_policy (vOut aOut : BranchOutcome) (d : Int)
    (sv sa : List StreamInfo) :
    (badOutcome vOut → ∃ err, mergeUnified true false vOut aOut d = .error err) ∧
    (badOutcome aOut → ∃ err, mergeUnified false true vOut aOut d = .error err) ∧
    (badOutcome vOut → aOut = .success sa → sa ≠ [] →
      mergeUnified true true vOut aOut d = .ok ⟨d, some [], some sa⟩) ∧
    (badOutcome aOut → vOut = .success sv → sv ≠ [] →
      mergeUnified true true vOut aOut d = .ok ⟨d, some sv, some []⟩) ∧
    (badOutcome vOut → badOutcome aOut →
      mergeUnified true true vOut aOut d = .error .totalFailure) := by
  refine ⟨?_, ?_, ?_, ?_, ?_⟩
  · rintro (rfl | ⟨e, rfl⟩) <;> exact ⟨_, rfl⟩
  · rintro (rfl | ⟨e, rfl⟩) <;> exact ⟨_, rfl⟩
  · intro hbad hsae hsane
    have hsa2 : sa.isEmpty = false := by
      cases hh : sa.isEmpty with
      | false => rfl
      | true => exact absurd (List.isEmpty_iff.mp hh) hsane
    subst hsae
    rcases hbad with rfl | ⟨e, rfl⟩ <;>
      simp [mergeUnified, mergeBranch, Except.map, hsane]
  · intro hbad hsve hsvne
    have hsv2 : sv.isEmpty = false := by
      cases hh : sv.isEmpty with
      | false => rfl
      | true => exact absurd (List.isEmpty_iff.mp hh) hsvne
    subst hsve
    rcases hbad with rfl | ⟨e, rfl⟩ <;>
      simp [mergeUnified, mergeBranch, Except.map, hsvne]
  · intro hbv hba
    rcases hbv with rfl | ⟨e, rfl⟩ <;> rcases hba with rfl | ⟨e2, rfl⟩ <;>
      simp [mergeUnified, mergeBranch, Except.map]

/-- Witness for C6: with both branches requested, a timed-out video branch
degrades to `video = []` while a populated audio branch is returned; with
audio not requested, the same video timeout is fatal. -/
theorem C6_unified_branch_policy_witness :
    badOutcome BranchOutcome.timeout ∧
    mergeUnified true true .timeout
      (.success [{ url := "u", ext := none, bitrate := some 128 }]) 7 =
      .ok ⟨7, some [], some [{ url := "u", ext := none, bitrate := some 128 }]⟩ ∧
    mergeUnified true false .timeout
      (.success [{ url := "u", ext := none, bitrate := some 128 }]) 7 =
      .error (.branchTimeout "video") := by
  refine ⟨Or.inl rfl, ?_, rfl⟩
  exact (C6_unified_branch_policy .timeout
    (.success [{ url := "u", ext := none, bitrate := some 128 }]) 7
    [] [{ url := "u", ext := none, bitrate := some 128 }]).2.2.1
    (Or.inl rfl) rfl (by decide)

theorem getInfoAux_spec (delay : Rat) :
    ∀ (l : List FetchOutcome) (last : Option String),
      GoodTrace delay (getInfoAux delay l last).2 ∧
      (getInfoAux delay l last).2.countP FetchEvent.isAttempt ≤ l.length ∧
      (∀ p, (getInfoAux delay l last).1 = .success p →
        ∃ pre post, l = pre ++ .ok (some p) :: post ∧
          ∀ o ∈ pre, nonStopping o) ∧
      (∀ m, (getInfoAux delay l last).1 = .raisedOther m →
        ∃ pre post, l = pre ++ .otherError m :: post ∧
          (∀ o ∈ pre, nonStopping o) ∧
          (getInfoAux delay l last).2.countP FetchEvent.isAttempt
            = pre.length + 1) ∧
      (∀ m, (getInfoAux delay l last).1 = .raisedLast m →
        (∀ o ∈ l, nonStopping o) ∧
        ((∃ pre post, l = pre ++ .downloadError m :: post ∧
            ∀ o ∈ post, o = .ok none) ∨
          (last = some m ∧ ∀ o ∈ l, o = .ok none))) ∧
      ((getInfoAux delay l last).1 = .raisedNone →
        last = none ∧ ∀ o ∈ l, o = .ok none) := by
  intro l
  induction l with
  | nil =>
    intro last
    cases last with
    | none =>
      refine ⟨GoodTrace.nil, by simp [getInfoAux], ?_, ?_, ?_, ?_⟩
      · intro p hp; simp [getInfoAux] at hp
      · intro m hm; simp [getInfoAux] at hm
      · intro m hm; simp [getInfoAux] at hm
      · intro _; exact ⟨rfl, by simp⟩
    | some m0 =>
      refine ⟨GoodTrace.nil, by simp [getInfoAux], ?_, ?_, ?_, ?_⟩
      · intro p hp; simp [getInfoAux] at hp
      · intro m hm; simp [getInfoAux] at hm
      · intro m hm
        have hm0 : m0 = m := by simpa [getInfoAux] using hm
        subst hm0
        exact ⟨by simp, Or.inr ⟨rfl, by simp⟩⟩
      · intro hn; simp [getInfoAux] at hn
  | cons o rest ih =>
    intro last
    cases o with
    | ok info =>
      cases info with
      | some p =>
        have heq : getInfoAux delay (.ok (some p) :: rest) last =
            (.success p, [.attempt (.ok (some p))]) := rfl
        rw [heq]
        refine ⟨GoodTrace.att _ _ GoodTrace.nil,
          by simp [List.countP_cons, FetchEvent.isAttempt] <;> omega,
          ?_, ?_, ?_, ?_⟩
        · intro q hq
          have hq2 : p = q := by simpa using hq
          subst hq2
          exact ⟨[], rest, rfl, by simp⟩
        · intro m hm; simp at hm
        · intro m hm; simp at hm
        · intro hn; simp at hn
      | none =>
        obtain ⟨ihg, ihc, ihs, iho, ihl, ihn⟩ := ih last
        have heq : getInfoAux delay (.ok none :: rest) last =
            ((getInfoAux delay rest last).1,
             .attempt (.ok none) :: (getInfoAux delay rest last).2) := rfl
        rw [heq]
        refine ⟨GoodTrace.att _ _ ihg, ?_, ?_, ?_, ?_, ?_⟩
        · simp [List.countP_cons, FetchEvent.isAttempt] <;> omega
        · intro p hp
          obtain ⟨pre, post, hsp, hpre⟩ := ihs p hp
          refine ⟨.ok none :: pre, post, by rw [hsp]; rfl, ?_⟩
          intro o ho
          rcases List.mem_cons.mp ho with rfl | ho'
          · exact Or.inl rfl
          · exact hpre o ho'
        · intro m hm
          obtain ⟨pre, post, hsp, hpre, hcount⟩ := iho m hm
          refine ⟨.ok none :: pre, post, by rw [hsp]; rfl, ?_, ?_⟩
          · intro o ho
            rcases List.mem_cons.mp ho with rfl | ho'
            · exact Or.inl rfl
            · exact hpre o ho'
          · simp [List.countP_cons, FetchEvent.isAttempt] <;> omega
        · intro m hm
          obtain ⟨hall, hdisj⟩ := ihl m hm
          constructor
          · intro o ho
            rcases List.mem_cons.mp ho with rfl | ho'
            · exact Or.inl rfl
            · exact hall o ho'
          · rcases hdisj with ⟨pre, post, hsp, hpost⟩ | ⟨hlast, hallok⟩
            · exact Or.inl ⟨.ok none :: pre, post, by rw [hsp]; rfl, hpost⟩
            · refine Or.inr ⟨hlast, ?_⟩
              intro o ho
              rcases List.mem_cons.mp ho with rfl | ho'
              · rfl
              · exact hallok o ho'
        · intro hn
          obtain ⟨hl0, hallok⟩ := ihn hn
          refine ⟨hl0, ?_⟩
          intro o ho
          rcases List.mem_cons.mp ho with rfl | ho'
          · rfl
          · exact hallok o ho'
    | downloadError m0 =>
      by_cases hre : rest.isEmpty = true
      · have hrnil : rest = [] := List.isEmpty_iff.mp hre
        subst hrnil
        have heq : getInfoAux delay [.downloadError m0] last =
            (.raisedLast m0, [.attempt (.downloadError m0)]) := rfl
        rw [heq]
        refine ⟨GoodTrace.att _ _ GoodTrace.nil,
          by simp [List.countP_cons, FetchEvent.isAttempt] <;> omega,
          ?_, ?_, ?_, ?_⟩
        · intro p hp; simp at hp
        · intro m hm; simp at hm
        · intro m hm
          have hm0 : m0 = m := by simpa using hm
          subst hm0
          refine ⟨?_, Or.inl ⟨[], [], rfl, by simp⟩⟩
          intro o ho
          rcases List.mem_cons.mp ho with rfl | ho'
          · exact Or.inr ⟨m0, rfl⟩
          · simp at ho'
        · intro hn; simp at hn
      · obtain ⟨ihg, ihc, ihs, iho, ihl, ihn⟩ := ih (some m0)
        have hre2 : rest.isEmpty = false := by
          cases hh : rest.isEmpty with
          | false => rfl
          | true => exact absurd hh hre
        have heq : getInfoAux delay (.downloadError m0 :: rest) last =
            ((getInfoAux delay rest (some m0)).1,
             .attempt (.downloadError m0) :: .sleep delay ::
               (getInfoAux delay rest (some m0)).2) := by
          simp [getInfoAux, hre2]
        rw [heq]
        refine ⟨GoodTrace.attSleep m0 _ ihg, ?_, ?_, ?_, ?_, ?_⟩
        · simp [List.countP_cons, FetchEvent.isAttempt] <;> omega
        · intro p hp
          obtain ⟨pre, post, hsp, hpre⟩ := ihs p hp
          refine ⟨.downloadError m0 :: pre, post, by rw [hsp]; rfl, ?_⟩
          intro o ho
          rcases List.mem_cons.mp ho with rfl | ho'
          · exact Or.inr ⟨m0, rfl⟩
          · exact hpre o ho'
        · intro m hm
          obtain ⟨pre, post, hsp, hpre, hcount⟩ := iho m hm
          refine ⟨.downloadError m0 :: pre, post, by rw [hsp]; rfl, ?_, ?_⟩
          · intro o ho
            rcases List.mem_cons.mp ho with rfl | ho'
            · exact Or.inr ⟨m0, rfl⟩
            · exact hpre o ho'
          · simp [List.countP_cons, FetchEvent.isAttempt] <;> omega
        · intro m hm
          obtain ⟨hall, hdisj⟩ := ihl m hm
          constructor
          · intro o ho
            rcases List.mem_cons.mp ho with rfl | ho'
            · exact Or.inr ⟨m0, rfl⟩
            · exact hall o ho'
          · rcases hdisj with ⟨pre, post, hsp, hpost⟩ | ⟨hlast, hallok⟩
            · exact Or.inl ⟨.downloadError m0 :: pre, post, by rw [hsp]; rfl,
                hpost⟩
            · have hm0 : m0 = m := by simpa using hlast
              subst hm0
              exact Or.inl ⟨[], rest, rfl, hallok⟩
        · intro hn
          obtain ⟨hc0, -⟩ := ihn hn
          exact absurd hc0 (by simp)
    | otherError m0 =>
      have heq : getInfoAux delay (.otherError m0 :: rest) last =
          (.raisedOther m0, [.attempt (.otherError m0)]) := rfl
      rw [heq]
      refine ⟨GoodTrace.att _ _ GoodTrace.nil,
        by simp [List.countP_cons, FetchEvent.isAttempt] <;> omega,
        ?_, ?_, ?_, ?_⟩
      · intro p hp; simp at hp
      · intro m hm
        have hm0 : m0 = m := by simpa using hm
        subst hm0
        exact ⟨[], rest, rfl, by simp, by
          simp [List.countP_cons, FetchEvent.isAttempt]⟩
      · intro m hm; simp at hm
      · intro hn; simp at hn

/-- C7 counterexample: when every attempt returns an empty (falsy) info and no
`DownloadError` is ever raised, exhaustion executes `raise last_error` with
`last_error = None` — a `TypeError`, not the claimed structured download
error. -/
theorem C7_retry_loop_counterexample :
    (getYtdlpInfo [.ok none, .ok none] (1 / 2 : Rat)).1 = .raisedNone ∧
    ∀ m : String,
      (getYtdlpInfo [.ok none, .ok none] (1 / 2 : Rat)).1 ≠ .raisedLast m := by
  refine ⟨rfl, ?_⟩
  intro m hm
  rw [show (getYtdlpInfo [FetchOutcome.ok none, .ok none] (1 / 2 : Rat)).1
      = FetchResult.raisedNone from rfl] at hm
  exact FetchResult.noConfusion hm

/-- C7 (amended): `_get_ytdlp_info` makes at most `max_retries` provider
attempts (the outcome list has length `max_retries`); every sleep carries the
fixed `retry_delay` and immediately follows a download-error attempt; any
other exception aborts immediately (the attempt count stops right there); a
success returns the first non-empty result; and on exhaustion it raises the
last captured download error when at least one attempt raised one — if every
attempt returned a falsy info, the final `raise` has no captured error and
raises `None` (a `TypeError`). -/
theorem C7_retry_loop_amended (outcomes : List FetchOutcome) (delay : Rat) :
    GoodTrace delay (getYtdlpInfo outcomes delay).2 ∧
    (getYtdlpInfo outcomes delay).2.countP FetchEvent.isAttempt
      ≤ outcomes.length ∧
    (∀ p, (getYtdlpInfo outcomes delay).1 = .success p →
      ∃ pre post, outcomes = pre ++ .ok (some p) :: post ∧
        ∀ o ∈ pre, nonStopping o) ∧
    (∀ m, (getYtdlpInfo outcomes delay).1 = .raisedOther m →
      ∃ pre post, outcomes = pre ++ .otherError m :: post ∧
        (∀ o ∈ pre, nonStopping o) ∧
        (getYtdlpInfo outcomes delay).2.countP FetchEvent.isAttempt
          = pre.length + 1) ∧
    (∀ m, (getYtdlpInfo outcomes delay).1 = .raisedLast m →
      (∀ o ∈ outcomes, nonStopping o) ∧
      ∃ pre post, outcomes = pre ++ .downloadError m :: post ∧
        ∀ o ∈ post, o = .ok none) ∧
    ((getYtdlpInfo outcomes delay).1 = .raisedNone →
      ∀ o ∈ outcomes, o = .ok none) := by
  obtain ⟨hg, hc, hs, ho, hl, hn⟩ := getInfoAux_spec delay outcomes none
  refine ⟨hg, hc, hs, ho, ?_, fun h => (hn h).2⟩
  intro m hm
  obtain ⟨hall, hdisj⟩ := hl m hm
  rcases hdisj with hsplit | ⟨hc0, -⟩
  · exact ⟨hall, hsplit⟩
  · exact absurd hc0 (by simp)

/-- Witness for C7 (amended): a download error on the first attempt followed
by a truthy info on the second returns that first non-empty result. -/
theorem C7_retry_loop_amended_witness :
    (getYtdlpInfo [.downloadError "boom", .ok (some 7)] (1 / 2 : Rat)).1
      = .success 7 ∧
    ∃ pre post, [FetchOutcome.downloadError "boom", .ok (some 7)]
        = pre ++ .ok (some 7) :: post ∧ ∀ o ∈ pre, nonStopping o := by
  exact ⟨rfl, (C7_retry_loop_amended [.downloadError "boom", .ok (some 7)]
    (1 / 2 : Rat)).2.2.1 7 rfl⟩

/-! ## URL invariants of the four collection paths -/

theorem gvsCollect_url_ok : ∀ {formats : List RawFormat} {s : StreamInfo},
    s ∈ gvsCollect formats →
    s.url.isEmpty = false ∧ hasSub s.url "manifest" = false := by
  intro formats
  induction formats with
  | nil => intro s h; simp [gvsCollect] at h
  | cons fmt rest ih =>
    intro s h
    simp only [gvsCollect] at h
    split at h
    · exact ih h
    · split at h
      · exact ih h
      · rename_i u hu
        split at h
        · exact ih h
        · rename_i hc2
          have hc2f : (u.isEmpty || hasSub u "manifest") = false := by
            cases hh : u.isEmpty || hasSub u "manifest" with
            | false => rfl
            | true => exact absurd hh hc2
          rcases List.mem_cons.mp h with rfl | h'
          · exact Bool.or_eq_false_iff.mp hc2f
          · exact ih h'

theorem gasCollect_url_ok : ∀ {formats : List RawFormat} {s : StreamInfo},
    s ∈ gasCollect formats → s.url.isEmpty = false := by
  intro formats
  induction formats with
  | nil => intro s h; simp [gasCollect] at h
  | cons fmt rest ih =>
    intro s h
    simp only [gasCollect] at h
    split at h
    · exact ih h
    · split at h
      · exact ih h
      · split at h
        · exact ih h
        · split at h
          · exact ih h
          · rename_i u hu
            split at h
            · exact ih h
            · rename_i hc3
              have hc3f : u.isEmpty = false := by
                cases hh : u.isEmpty with
                | false => rfl
                | true => exact absurd hh hc3
              rcases List.mem_cons.mp h with rfl | h'
              · exact hc3f
              · exact ih h'

theorem pvsCollect_url_from : ∀ {vc : Option String} {fmts : List RawFormat}
    {s : StreamInfo}, s ∈ pvsCollect vc fmts →
    ∃ fmt ∈ fmts, s.url = (pyGet fmt.url).getD "" := by
  intro vc fmts
  induction fmts with
  | nil => intro s h; simp [pvsCollect] at h
  | cons fmt rest ih =>
    intro s h
    simp only [pvsCollect] at h
    split at h
    · split at h
      · rcases List.mem_cons.mp h with rfl | h'
        · exact ⟨fmt, by simp, rfl⟩
        · obtain ⟨f, hf, hu⟩ := ih h'
          exact ⟨f, by simp [hf], hu⟩
      · obtain ⟨f, hf, hu⟩ := ih h
        exact ⟨f, by simp [hf], hu⟩
    · rw [if_pos rfl] at h
      rcases List.mem_cons.mp h with rfl | h'
      · exact ⟨fmt, by simp, rfl⟩
      · obtain ⟨f, hf, hu⟩ := ih h'
        exact ⟨f, by simp [hf], hu⟩

theorem pasCollect_url_from : ∀ {ac : Option String} {fmts : List RawFormat}
    {s : StreamInfo}, s ∈ pasCollect ac fmts →
    ∃ fmt ∈ fmts, s.url = (pyGet fmt.url).getD "" := by
  intro ac fmts
  induction fmts with
  | nil => intro s h; simp [pasCollect] at h
  | cons fmt rest ih =>
    intro s h
    simp only [pasCollect] at h
    split at h
    · split at h
      · rcases List.mem_cons.mp h with rfl | h'
        · exact ⟨fmt, by simp, rfl⟩
        · obtain ⟨f, hf, hu⟩ := ih h'
          exact ⟨f, by simp [hf], hu⟩
      · obtain ⟨f, hf, hu⟩ := ih h
        exact ⟨f, by simp [hf], hu⟩
    · rw [if_pos rfl] at h
      rcases List.mem_cons.mp h with rfl | h'
      · exact ⟨fmt, by simp, rfl⟩
      · obtain ⟨f, hf, hu⟩ := ih h'
        exact ⟨f, by simp [hf], hu⟩

theorem pyGetD_url_some {f : Option (Option String)} {u : String}
    (h : pyGetD f "" = some u) (hne : u.isEmpty = false) : pyGet f = some u := by
  cases f with
  | none =>
    injection h with h1
    rw [← h1] at hne
    exact absurd hne (by decide)
  | some v => exact h

theorem unifiedPreFilter_urls {iv ia : Bool} :
    ∀ {formats vfs afs : List RawFormat},
      unifiedPreFilter iv ia formats = .ok (vfs, afs) →
      (∀ f ∈ vfs, ∃ u, pyGet f.url = some u ∧ u.isEmpty = false ∧
        hasSub u "manifest" = false) ∧
      (∀ f ∈ afs, ∃ u, pyGet f.url = some u ∧ u.isEmpty = false) := by
  intro formats
  induction formats with
  | nil =>
    intro vfs afs h
    simp only [unifiedPreFilter] at h
    injection h with h1
    injection h1 with h2 h3
    subst h2; subst h3
    exact ⟨by simp, by simp⟩
  | cons fmt rest ih =>
    intro vfs afs h
    simp only [unifiedPreFilter] at h
    split at h
    · exact ih h
    · rename_i u hu
      split at h
      · exact ih h
      · rename_i hue
        have huef : u.isEmpty = false := by
          cases hh : u.isEmpty with
          | false => rfl
          | true => exact absurd hh hue
        have hurl : pyGet fmt.url = some u := pyGetD_url_some hu huef
        split at h
        · exact absurd h (by simp)
        · rename_i isAud hAud
          split at h
          · exact absurd h (by simp)
          · rename_i vfs0 afs0 hrec
            obtain ⟨ihv, iha⟩ := ih hrec
            injection h with h1
            injection h1 with h2 h3
            subst h2; subst h3
            constructor
            · intro f hf
              by_cases hvidc : (iv && truthyS (pyGet fmt.vcodec)
                  && !(pyGet fmt.vcodec == some "none")
                  && !hasSub u "manifest" && hasSub u "videoplayback") = true
              · rw [if_pos hvidc] at hf
                rcases List.mem_cons.mp hf with rfl | hf'
                · refine ⟨u, hurl, huef, ?_⟩
                  have := (Bool.and_eq_true _ _).mp
                    ((Bool.and_eq_true _ _).mp hvidc).1
                  have hnm : (!hasSub u "manifest") = true := this.2
                  simpa using hnm
                · exact ihv f hf'
              · rw [if_neg hvidc] at hf
                exact ihv f hf
            · intro f hf
              by_cases hauda : isAud = true
              · rw [if_pos hauda] at hf
                rcases List.mem_cons.mp hf with rfl | hf'
                · exact ⟨u, hurl, huef⟩
                · exact iha f hf'
              · rw [if_neg hauda] at hf
                exact iha f hf

theorem gasFilter_fst_subset (streams : List StreamInfo)
    (codec : Option String) :
    ∀ s ∈ (gasApplyCodecFilter streams codec).1, s ∈ streams := by
  intro s hs
  unfold gasApplyCodecFilter at hs
  split at hs
  · exact hs
  · split at hs
    · exact List.mem_of_mem_filter hs
    · exact hs

theorem mergeBranch_ok {stype : String} {out : BranchOutcome}
    {otherReq : Bool} {l : List StreamInfo}
    (h : mergeBranch stype out otherReq = .ok l) :
    l = [] ∨ out = .success l := by
  unfold mergeBranch at h
  split at h
  · rename_i s
    injection h with h1
    exact Or.inr (by rw [h1])
  · split at h
    · exact absurd h (by simp)
    · injection h with h1
      exact Or.inl h1.symm
  · split at h
    · exact absurd h (by simp)
    · injection h with h1
      exact Or.inl h1.symm

theorem mergeUnified_ok_parts {iv ia : Bool} {vOut aOut : BranchOutcome}
    {d : Int} {u : UnifiedOk} (h : mergeUnified iv ia vOut aOut d = .ok u) :
    (u.video = none ∨ u.video = some [] ∨
      ∃ s0, vOut = .success s0 ∧ u.video = some s0) ∧
    (u.audio = none ∨ u.audio = some [] ∨
      ∃ s0, aOut = .success s0 ∧ u.audio = some s0) := by
  unfold mergeUnified at h
  split at h
  · exact absurd h (by simp)
  · rename_i video? hveq
    split at h
    · exact absurd h (by simp)
    · rename_i audio? haeq
      split at h
      · exact absurd h (by simp)
      · injection h with h1
        subst h1
        constructor
        · split at hveq
          · cases hmb : mergeBranch "video" vOut ia with
            | error e =>
              rw [hmb] at hveq
              exact absurd hveq (by simp [Except.map])
            | ok l =>
              rw [hmb] at hveq
              simp only [Except.map] at hveq
              injection hveq with h2
              rcases mergeBranch_ok hmb with rfl | hsucc
              · exact Or.inr (Or.inl h2.symm)
              · exact Or.inr (Or.inr ⟨l, hsucc, h2.symm⟩)
          · injection hveq with h2
            exact Or.inl h2.symm
        · split at haeq
          · cases hmb : mergeBranch "audio" aOut iv with
            | error e =>
              rw [hmb] at haeq
              exact absurd haeq (by simp [Except.map])
            | ok l =>
              rw [hmb] at haeq
              simp only [Except.map] at haeq
              injection haeq with h2
              rcases mergeBranch_ok hmb with rfl | hsucc
              · exact Or.inr (Or.inl h2.symm)
              · exact Or.inr (Or.inr ⟨l, hsucc, h2.symm⟩)
          · injection haeq with h2
            exact Or.inl h2.symm

/-- C8 counterexample: `get_audio_streams` does not filter manifest urls — a
single audio format whose url contains `"manifest"` is selected and returned
as-is, so not every returned `StreamInfo` has a manifest-free url. -/
theorem C8_url_invariant_counterexample :
    get_audio_streams
        [{ acodec := some (some "opus"), tbr := some (some 128),
           url := some (some "https://h/manifest/a.m4a"),
           ext := some (some "m4a") }] 192 none =
      .ok ([{ url := "https://h/manifest/a.m4a", ext := some "m4a",
              bitrate := some 128, codec := some "opus" }],
           [.warnBitrateMismatch 192 (some 128)]) ∧
    hasSub "https://h/manifest/a.m4a" "manifest" = true := by
  exact ⟨by rfl, by decide⟩

/-- C8 (amended): every `StreamInfo` returned by any of the four public
stream paths has a non-empty url; the two video paths additionally guarantee
the url does not contain the manifest marker, but the two audio paths do not
filter the manifest marker. -/
theorem C8_stream_url_amended :
    (∀ formats quality res ws s,
      get_video_streams formats quality = .ok (res, ws) → s ∈ res →
      s.url.isEmpty = false ∧ hasSub s.url "manifest" = false) ∧
    (∀ formats bitrate codec res ws s,
      get_audio_streams formats bitrate codec = .ok (res, ws) → s ∈ res →
      s.url.isEmpty = false) ∧
    (∀ formats ab vq ac vc iv ia d u,
      get_unified_streams formats ab vq ac vc iv ia d = .ok u →
      (∀ s ∈ u.video.getD [],
        s.url.isEmpty = false ∧ hasSub s.url "manifest" = false) ∧
      (∀ s ∈ u.audio.getD [], s.url.isEmpty = false)) := by
  refine ⟨?_, ?_, ?_⟩
  · intro formats quality res ws s h hs
    obtain ⟨r, hres, hsel⟩ := get_video_streams_ok h
    subst hres
    rcases List.mem_singleton.mp hs with rfl
    exact gvsCollect_url_ok (selectVideo_mem hsel)
  · intro formats bitrate codec res ws s h hs
    obtain ⟨best, hres, hsel, -⟩ := get_audio_streams_ok h
    subst hres
    rcases List.mem_singleton.mp hs with rfl
    exact gasCollect_url_ok
      (gasFilter_fst_subset (gasCollect formats) codec _ (selectAudio_mem hsel))
  · intro formats ab vq ac vc iv ia d u h
    unfold get_unified_streams at h
    split at h
    · exact absurd h (by simp)
    · split at h
      · exact absurd h (by simp)
      · split at h
        · exact absurd h (by simp)
        · rename_i vfs afs hpre
          obtain ⟨hprev, hprea⟩ := unifiedPreFilter_urls hpre
          obtain ⟨hv, ha⟩ := mergeUnified_ok_parts h
          constructor
          · rcases hv with hv | hv | ⟨s0, hout, hv⟩ <;> rw [hv]
            · simp
            · simp
            · intro s hs
              simp only [Option.getD_some] at hs
              cases hres : process_video_streams vfs vq vc with
              | error e => rw [hres] at hout; exact absurd hout (by simp [runBranch])
              | ok pr =>
                obtain ⟨s1, ds⟩ := pr
                rw [hres] at hout
                have hs1 : s1 = s0 := by
                  simpa [runBranch] using hout
                subst hs1
                obtain ⟨r, hr1, -, hr2⟩ := process_video_streams_ok hres
                subst hr1
                rcases List.mem_singleton.mp hs with rfl
                obtain ⟨f, hf, hurl⟩ := pvsCollect_url_from (selectVideo_mem hr2)
                obtain ⟨u0, hu0, hu0e, hu0m⟩ := hprev f hf
                rw [hurl, hu0]
                exact ⟨hu0e, hu0m⟩
          · rcases ha with ha | ha | ⟨s0, hout, ha⟩ <;> rw [ha]
            · simp
            · simp
            · intro s hs
              simp only [Option.getD_some] at hs
              cases hres : process_audio_streams afs ab ac with
              | error e => rw [hres] at hout; exact absurd hout (by simp [runBranch])
              | ok pr =>
                obtain ⟨s1, ds⟩ := pr
                rw [hres] at hout
                have hs1 : s1 = s0 := by
                  simpa [runBranch] using hout
                subst hs1
                obtain ⟨r, hr1, -, hr2⟩ := process_audio_streams_ok hres
                subst hr1
                rcases List.mem_singleton.mp hs with rfl
                obtain ⟨f, hf, hurl⟩ := pasCollect_url_from (selectAudio_mem hr2)
                obtain ⟨u0, hu0, hu0e⟩ := hprea f hf
                rw [hurl, hu0]
                exact hu0e

/-- Video format used by the C8 witness. -/
def c8vFmt : RawFormat :=
  { vcodec := some (some "avc1.64001f"), ext := some (some "mp4"),
    url := some (some "https://h/videoplayback?v=1"),
    height := some (some 720), width := some (some 1280),
    tbr := some (some 1000) }

/-- The stream `get_video_streams` builds from `c8vFmt`. -/
def c8vStream : StreamInfo :=
  { url := "https://h/videoplayback?v=1", ext := some "mp4",
    resolution := some "1280x720", height := some 720, width := some 1280,
    bitrate := some 1000, codec := some "avc1.64001f" }

/-- Audio format used by the C8 witness. -/
def c8aFmt : RawFormat :=
  { acodec := some (some "opus"), ext := some (some "webm"),
    url := some (some "https://h/videoplayback?a=1"),
    tbr := some (some 128) }

/-- The stream `get_audio_streams` builds from `c8aFmt`. -/
def c8aStream : StreamInfo :=
  { url := "https://h/videoplayback?a=1", ext := some "webm",
    bitrate := some 128, codec := some "opus" }

/-- Witness for C8 (amended) at concrete single-format runs of the video and
audio single-stream paths. -/
theorem C8_stream_url_amended_witness :
    get_video_streams [c8vFmt] "720p" = .ok ([c8vStream], []) ∧
    (c8vStream.url.isEmpty = false ∧ hasSub c8vStream.url "manifest" = false) ∧
    (get_audio_streams [c8aFmt] 192 none =
        .ok ([c8aStream], [.warnBitrateMismatch 192 (some 128)]) ∧
      c8aStream.url.isEmpty = false) := by
  refine ⟨rfl, ?_, rfl, ?_⟩
  · exact C8_stream_url_amended.1 [c8vFmt] "720p" [c8vStream] [] c8vStream rfl
      (by simp)
  · exact C8_stream_url_amended.2.1 [c8aFmt] 192 none [c8aStream]
      [.warnBitrateMismatch 192 (some 128)] c8aStream rfl (by simp)

/-- C9: `check_status` never raises for a provider download error — it
returns `available = false` carrying the message, with the status chosen by
first-match-wins over the ordered substring table ("Private video" →
private, "Video unavailable" → unavailable, "age-restricted" →
age_restricted, "removed" → removed, else error); a message containing
"Private video" yields status "private"; and any other exception yields
status "error" with that exception's message contained in the error field. -/
theorem C9_check_status (m : String) :
    (check_status (.downloadError m)).available = false ∧
    (check_status (.downloadError m)).error = some m ∧
    ((check_status (.downloadError m)).status =
      if hasSub m "Private video" then "private"
      else if hasSub m "Video unavailable" then "unavailable"
      else if hasSub m "age-restricted" then "age_restricted"
      else if hasSub m "removed" then "removed"
      else "error") ∧
    check_status (.downloadError "ERROR: Private video friend") =
      { available := false, status := "private",
        error := some "ERROR: Private video friend" } ∧
    (check_status (.otherError m)).available = false ∧
    (check_status (.otherError m)).status = "error" ∧
    hasSub ((check_status (.otherError m)).error.getD "") m = true := by
  refine ⟨rfl, rfl, ?_, by rfl, rfl, rfl, ?_⟩
  · show classifyStatus m = _
    unfold classifyStatus status_map
    by_cases h1 : hasSub m "Private video"
    · simp [List.find?, h1]
    · by_cases h2 : hasSub m "Video unavailable"
      · simp [List.find?, h1, h2]
      · by_cases h3 : hasSub m "age-restricted"
        · simp [List.find?, h1, h2, h3]
        · by_cases h4 : hasSub m "removed"
          · simp [List.find?, h1, h2, h3, h4]
          · simp [List.find?, h1, h2, h3, h4]
  · show hasSub ("Unexpected error: " ++ m) m = true
    rw [hasSub_iff]
    exact ⟨"Unexpected error: ".toList, [], by simp [String.toList]⟩

/-- A format whose `tbr` key is present with value `None`. -/
def c10NullTbrFmt : RawFormat :=
  { acodec := some (some "opus"), url := some (some "u"), tbr := some none }

/-- A well-formed companion audio format. -/
def c10GoodFmt : RawFormat :=
  { acodec := some (some "opus"), url := some (some "u2"),
    tbr := some (some 96) }

/-- C10: the unified pre-filter evaluates `fmt.get('tbr', 0) > 0` on a
present-but-`None` tbr and raises `TypeError` (surfaced as the handler's
`ValueError`), failing the whole call — whereas the single-stream audio
path's explicit guard treats the same descriptor as a non-candidate and
continues, collecting the remaining well-formed format. -/
theorem C10_unified_prefilter_tbr_null :
    unifiedPreFilter true true [c10NullTbrFmt, c10GoodFmt] = .error () ∧
    get_unified_streams [c10NullTbrFmt, c10GoodFmt] 192 "1080p" none none
      true true 0 = .error .typeErrorNoneCompare ∧
    gasCollect [c10NullTbrFmt, c10GoodFmt] =
      [{ url := "u2", ext := some "unknown", bitrate := some 96,
         codec := some "opus" }] := by
  exact ⟨rfl, rfl, rfl⟩

end YtdlpServices
